import Mathlib

/-!
# convert_imagesToKlg: the klg container writer

A shallow embedding of `src/convert_imagesToKlg/main.cpp`.

The program reads two listings of image files, decodes them pair by pair with
OpenCV, normalises the depth image, assigns a timestamp and appends one
length-prefixed record per frame to a binary container.

Conventions of the embedding

* a byte is a `Nat` (below 256 wherever the program produced it);
* machine integers are `Int`/`Nat` with explicit wrap-around
  (`toInt32`, `toInt64`, `toSizeT`);
* integers are written least significant byte first: the program dumps the
  native representation, and the embedding fixes the little-endian one;
* a `cv::Mat` is a record of its geometry, element type, continuity flag and
  buffer;
* what the program obtains from its environment (option values, directory
  listings, decoded images, lines of the timestamp file, the state of the
  output path) is the `Input` record;
* a `double` is its value, a rational number, or an infinity or a NaN; the
  product `.. * 1e6` of line 129 is the exact product rounded to the nearest
  `double` (IEEE 754 binary64, ties to even), and the conversion to `int64_t`
  truncates toward zero and is undefined outside the range of `int64_t`;
* the two library computations (`std::stod` and the per-sample arithmetic of
  `cv::Mat::convertTo`) are parameters, collected in `Lib`; every general
  theorem holds for every `Lib`.
-/

namespace Klg

/-! ## Machine integers -/

/-- Conversion to `int32_t` (two's complement wrap-around). -/
def toInt32 (v : Int) : Int := (v + 2 ^ 31) % 2 ^ 32 - 2 ^ 31

/-- Conversion to `int64_t` (two's complement wrap-around). -/
def toInt64 (v : Int) : Int := (v + 2 ^ 63) % 2 ^ 64 - 2 ^ 63

/-- Conversion to `size_t` (64 bit, unsigned). -/
def toSizeT (v : Int) : Nat := (v % 2 ^ 64).toNat

/-- The `k` low-order bytes of `v`, least significant first. -/
def leBytes : Nat → Nat → List Nat
  | 0, _ => []
  | k + 1, v => v % 256 :: leBytes k (v / 256)

/-- The object representation of a `k`-byte signed integer holding `v`:
what `outStream.write((char*)&x, sizeof(x))` emits. -/
def writeInt (k : Nat) (v : Int) : List Nat :=
  leBytes k (v % 2 ^ (8 * k)).toNat

/-- What `outStream.write(ptr, n)` emits from the buffer at `ptr`: the first
`n` bytes, and nothing for a count that is not positive. -/
def streamWrite (buf : List Nat) (n : Int) : List Nat :=
  if n ≤ 0 then [] else buf.take n.toNat

/-! ## Doubles (IEEE 754 binary64) -/

/-- A value of type `double`. -/
inductive Dbl where
  /-- a finite value -/
  | finite (value : ℚ)
  /-- an infinity, negative or positive -/
  | inf (negative : Bool)
  /-- a NaN -/
  | nan
  deriving DecidableEq

/-- The quotient `n / d` rounded to the nearest integer, ties to even. -/
def rne (n d : Nat) : Nat :=
  let q := n / d
  let r := n % d
  if 2 * r < d then q else if d < 2 * r then q + 1 else if q % 2 = 0 then q else q + 1

/-- The number of binary digits of `n`, with `fuel` at least that number. -/
def bitLength : Nat → Nat → Nat
  | 0, _ => 0
  | fuel + 1, n => if n = 0 then 0 else bitLength fuel (n / 2) + 1

/-- The integer `e` with `2 ^ e ≤ n / d < 2 ^ (e + 1)`, for positive `n` and
`d`. -/
def floorLog2 (n d : Nat) : Int :=
  let e0 : Int := (bitLength n n : Int) - (bitLength d d : Int)
  if (if 0 ≤ e0 then d * 2 ^ e0.toNat ≤ n else d ≤ n * 2 ^ (-e0).toNat) then e0 else e0 - 1

/-- The `double` nearest to the rational `q`, ties to even: 53 significant
bits (`m` below), the last place `2 ^ s` never below `2 ^ (-1074)`
(subnormal numbers), an infinity when the rounded value `m * 2 ^ s` reaches
`2 ^ 1024`. -/
def roundToDouble (q : ℚ) : Dbl :=
  if q.num = 0 then .finite 0
  else
    let n := q.num.natAbs
    let d := q.den
    let s : Int := max (floorLog2 n d) (-1022) - 52
    let m : Nat := if 0 ≤ s then rne n (d * 2 ^ s.toNat) else rne (n * 2 ^ (-s).toNat) d
    if 0 ≤ s ∧ 1024 < (bitLength m m : Int) + s then .inf (decide (q.num < 0))
    else
      .finite (mkRat ((if q.num < 0 then -1 else 1) * ((m * 2 ^ s.toNat : Nat) : Int))
        (2 ^ (-s).toNat))

/-- The product `x * 1e6` of line 129, a `double` multiplication: the exact
product, rounded. The rational `mkRat (q.num * 1000000) q.den` is
`q * 1000000` (theorem `mkRat_million`). -/
def timesMillion : Dbl → Dbl
  | .finite q => roundToDouble (mkRat (q.num * 1000000) q.den)
  | .inf negative => .inf negative
  | .nan => .nan

/-- Truncation toward zero. -/
def truncate (q : ℚ) : Int := if 0 ≤ q then ⌊q⌋ else ⌈q⌉

/-- The conversion of a `double` to `int64_t` in the assignment of line 129:
the value truncated toward zero; undefined (nothing here) when the value is
not finite or the truncated value is outside the range of `int64_t`. -/
def doubleToInt64 : Dbl → Option Int
  | .finite q => if -2 ^ 63 ≤ truncate q ∧ truncate q < 2 ^ 63 then some (truncate q) else none
  | _ => none

/-! ## cv::Mat -/

/-- Size in bytes of one channel sample, by OpenCV depth code
(`CV_8U = 0, CV_8S = 1, CV_16U = 2, CV_16S = 3, CV_32S = 4, CV_32F = 5,
CV_64F = 6, CV_16F = 7`). -/
def elemSize1 (depth : Nat) : Nat :=
  match depth with
  | 0 => 1
  | 1 => 1
  | 2 => 2
  | 3 => 2
  | 4 => 4
  | 5 => 4
  | 6 => 8
  | _ => 2

/-- The depth code `CV_16U`. -/
def CV_16U : Nat := 2

/-- The type code `CV_16UC1`. -/
def CV_16UC1 : Nat := 2

/-- A decoded image. -/
structure Mat where
  /-- number of rows -/
  rows : Nat
  /-- number of columns -/
  cols : Nat
  /-- depth code of one channel sample -/
  depth : Nat
  /-- number of channels -/
  channels : Nat
  /-- result of `isContinuous()` -/
  continuous : Bool
  /-- the buffer at `data`, row-major -/
  data : List Nat
  deriving DecidableEq

/-- The pixel count, `Mat::total()`. -/
def Mat.total (m : Mat) : Nat := m.rows * m.cols

/-- Bytes per pixel, `Mat::elemSize()`. -/
def Mat.elemSize (m : Mat) : Nat := m.channels * elemSize1 m.depth

/-- The type code, `Mat::type()`, that is `CV_MAKETYPE(depth, channels)`. -/
def Mat.type (m : Mat) : Nat := m.depth % 8 + 8 * (m.channels - 1)

/-- The default-constructed matrix `imread` returns for a file it cannot
decode. -/
def Mat.unread : Mat := ⟨0, 0, 0, 1, true, []⟩

/-! ## Errors and library parameters -/

/-- What ends a run before `main` returns: the exceptions, and the one
conversion whose behaviour is undefined. -/
inductive Err where
  /-- `invalid_argument("Number of input timestamps != number of images")` -/
  | timestampCount
  /-- `invalid_argument("Could not read rgb-image file: ...")` -/
  | rgbRead
  /-- `invalid_argument("Could not read depth-image file: ...")` -/
  | depthRead
  /-- `invalid_argument("Image sizes are not matching.")` -/
  | sizeMismatch
  /-- `invalid_argument("Data has to be continuous.")` -/
  | notContinuous
  /-- a `cv::Exception` raised by a failed assertion inside OpenCV -/
  | cvAssert
  /-- the exception `std::stod` raises when it cannot convert -/
  | stod
  /-- no exception: the conversion to `int64_t` of line 129 has undefined
  behaviour for the value at hand, and the model ends the run there -/
  | undefinedConversion
  deriving DecidableEq

/-- The library computations the program relies on. -/
structure Lib where
  /-- the `double` that `std::stod(s)` returns, and nothing when it throws -/
  stod : List Char → Option Dbl
  /-- the 16-bit sample `convertTo` computes: `saturate_cast<ushort>` of the
  source sample times the scale, given the scale, the source depth code and
  the bytes of the source sample -/
  convertSample : ℚ → Nat → List Nat → Nat

/-! ## Loading (main.cpp lines 110 to 117) -/

/-- Exchange of the first and the third sample of one pixel; `es` is the
size of one sample. -/
def swapFirstThird (es : Nat) (px : List Nat) : List Nat :=
  (px.drop (2 * es)).take es ++ (px.drop es).take es ++ px.take es

/-- The bytes of pixel `p`, for a pixel size of `sz` bytes. -/
def pixelAt (data : List Nat) (sz p : Nat) : List Nat :=
  (data.drop (p * sz)).take sz

/-- Buffer of `cvtColor(.., COLOR_RGB2BGR)`: every pixel with its first and
third channel exchanged, three channels per pixel. -/
def swappedData (es srcPixel : Nat) (data : List Nat) : Nat → List Nat
  | 0 => []
  | n + 1 => swappedData es srcPixel data n ++ swapFirstThird es (pixelAt data srcPixel n)

/-- The call `cv::cvtColor(rgb, rgb, cv::COLOR_RGB2BGR)` of line 111.
OpenCV asserts that the source is not empty, has 3 or 4 channels and samples
of 8 or 16 unsigned bits or 32-bit floats; the result has 3 channels, the
source's first and third channel exchanged. A source that already has that
type and size is converted in its own buffer. -/
def cvtColorRGB2BGR (src : Mat) : Except Err Mat :=
  if src.total = 0 then .error .cvAssert
  else if src.channels ≠ 3 ∧ src.channels ≠ 4 then .error .cvAssert
  else if src.depth ≠ 0 ∧ src.depth ≠ 2 ∧ src.depth ≠ 5 then .error .cvAssert
  else .ok
    { rows := src.rows
      cols := src.cols
      depth := src.depth
      channels := 3
      continuous := if src.channels = 3 then src.continuous else true
      data := swappedData (elemSize1 src.depth) src.elemSize src.data src.total }

/-- Lines 110 to 117: the colour image after `cvtColor`, and the four checks
in program order. `rgb0` and `depth` are the results of the two `imread`
calls. -/
def loadFrame (rgb0 depth : Mat) : Except Err (Mat × Mat) :=
  match cvtColorRGB2BGR rgb0 with
  | .error e => .error e
  | .ok rgb =>
    if rgb.total = 0 then .error .rgbRead
    else if depth.total = 0 then .error .depthRead
    else if rgb.total ≠ depth.total then .error .sizeMismatch
    else if !rgb.continuous || !depth.continuous then .error .notContinuous
    else .ok (rgb, depth)

/-! ## Depth normalisation (line 119) -/

/-- Buffer of `convertTo`: each of the `n` source samples converted to a
16-bit sample. -/
def convertedData (lib : Lib) (scale : ℚ) (depth : Nat) (data : List Nat) : Nat → List Nat
  | 0 => []
  | n + 1 =>
    convertedData lib scale depth data n ++
      leBytes 2 (lib.convertSample scale depth (pixelAt data (elemSize1 depth) n))

/-- The call `m.convertTo(m, rtype, alpha)`: only the depth of `rtype` is
used, the channel count stays that of the source
(`CV_MAKETYPE(CV_MAT_DEPTH(rtype), channels())`). Here `rtype` has depth
`CV_16U`. -/
def convertTo16U (lib : Lib) (m : Mat) (alpha : ℚ) : Mat :=
  { rows := m.rows
    cols := m.cols
    depth := CV_16U
    channels := m.channels
    continuous := true
    data := convertedData lib alpha m.depth m.data (m.total * m.channels) }

/-- Line 119:
`if(depthScale != 1 || depth.type() != CV_16UC1) depth.convertTo(depth, CV_16UC1, depthScale);` -/
def normalizeDepth (lib : Lib) (depthScale : ℚ) (depth : Mat) : Mat :=
  if depthScale ≠ 1 ∨ depth.type ≠ CV_16UC1 then convertTo16U lib depth depthScale
  else depth

/-! ## Timestamps (lines 121 to 132) -/

/-- The value `std::string::npos`. -/
def npos : Nat := 2 ^ 64 - 1

/-- Index of the first `c` at or after position `i` of the text whose
remainder is given, `npos` when there is none. -/
def findFrom (c : Char) : List Char → Nat → Nat
  | [], _ => npos
  | x :: xs, i => if x = c then i else findFrom c xs (i + 1)

/-- The call `s.find(" ")`. -/
def findSpace (s : List Char) : Nat := findFrom ' ' s 0

/-- The call `s.substr(0, count)`. -/
def substr0 (s : List Char) (count : Nat) : List Char := s.take (min count s.length)

/-- Lines 123 and 126: `int space_index = line.find(" ")` and
`line.substr(0, space_index)`; the index passes through `int` and back to
`size_t`. -/
def timestampStr (line : List Char) : List Char :=
  substr0 line (toSizeT (toInt32 (findSpace line)))

/-- Lines 121 to 132: the new value of `timestamp` for frame `i`. With a
timestamp file it is `std::stod(timestamp_str) * 1e6`, a `double`, converted
to `int64_t`. -/
def nextTimestamp (lib : Lib) (timestamps : List (List Char)) (timeStep : Int)
    (i : Nat) (timestamp : Int) : Except Err Int :=
  if timestamps.length ≠ 0 then
    match lib.stod (timestampStr (timestamps.getD i [])) with
    | none => .error .stod
    | some x =>
      match doubleToInt64 (timesMillion x) with
      | none => .error .undefinedConversion
      | some t => .ok t
  else .ok (toInt64 (timestamp + timeStep))

/-! ## Frame records (lines 135 to 143) -/

/-- A frame ready to be written: the loop's variables `timestamp`, `depth`
and `rgb` at line 134. -/
structure Prepared where
  /-- the variable `timestamp` -/
  timestamp : Int
  /-- the variable `depth` -/
  depth : Mat
  /-- the variable `rgb` -/
  rgb : Mat
  deriving DecidableEq

/-- The variable `depthSize` of line 135. -/
def depthSize (p : Prepared) : Int :=
  toInt32 ((p.depth.total * p.depth.elemSize % 2 ^ 64 : Nat) : Int)

/-- The variable `rgbSize` of line 136. -/
def rgbSize (p : Prepared) : Int :=
  toInt32 ((p.rgb.total * p.rgb.elemSize % 2 ^ 64 : Nat) : Int)

/-- The five writes of lines 137 to 143. -/
def frameBytes (p : Prepared) : List Nat :=
  writeInt 8 p.timestamp ++ writeInt 4 (depthSize p) ++ writeInt 4 (rgbSize p) ++
    streamWrite p.depth.data (depthSize p) ++ streamWrite p.rgb.data (rgbSize p)

/-- Lines 110 to 132 for frame `i`: load, check, normalise, timestamp. -/
def processFrame (lib : Lib) (depthScale : ℚ) (timeStep : Int)
    (timestamps : List (List Char)) (i : Nat) (timestamp : Int)
    (rgb0 depth0 : Mat) : Except Err Prepared :=
  match loadFrame rgb0 depth0 with
  | .error e => .error e
  | .ok (rgb, depth) =>
    match nextTimestamp lib timestamps timeStep i timestamp with
    | .error e => .error e
    | .ok t => .ok ⟨t, normalizeDepth lib depthScale depth, rgb⟩

/-! ## The run -/

/-- How a run ends. -/
inductive Outcome where
  /-- `main` returns the code -/
  | exit (code : Nat)
  /-- an exception leaves `main`, or the run reaches the undefined
  conversion -/
  | threw (e : Err)
  deriving DecidableEq

/-- What a run leaves behind. -/
structure Result where
  /-- how the run ended -/
  outcome : Outcome
  /-- the file at the output path after the run, when there is one: the
  file found there when the run never opened it, otherwise the bytes handed
  to the output stream -/
  file : Option (List Nat)
  /-- the frames written, in order (a record of the run for specification,
  not program state) -/
  frames : List Prepared
  deriving DecidableEq

/-- What the program reads from its environment. -/
structure Input where
  /-- `parser.hasOption("--out")` -/
  hasOut : Bool
  /-- `parser.hasOption("--depthdir")` -/
  hasDepthdir : Bool
  /-- `parser.hasOption("--rgbdir")` -/
  hasRgbdir : Bool
  /-- `parser.getOption("--timestamps")`, empty when the option is absent -/
  inputTimestamps : List Char
  /-- `readFileLines(inputTimestamps, true)` -/
  timestampLines : List (List Char)
  /-- `imread(dirRGB + inputRGBs[i])` for every entry of the colour listing -/
  rgbs : List Mat
  /-- `imread(dirDepth + inputDepths[i], IMREAD_UNCHANGED)` for every entry
  of the depth listing -/
  depths : List Mat
  /-- the variable `depthScale` of line 72, the rounded `float` product
  `1000 * s` for the value `s` of the option `-s` -/
  depthScale : ℚ
  /-- the variable `timeStep` of line 93, the `float` quotient
  `1000000 / fps` converted to `int64_t` (41666 for `fps = 24`) -/
  timeStep : Int
  /-- the file at the output path before the run, when there is one;
  `exists(outfile)` holds when there is -/
  outFile : Option (List Nat)

/-- The loop of lines 99 to 144 from frame `i` on; `out` holds the bytes
written so far and `done` the frames written so far. -/
def loop (lib : Lib) (depthScale : ℚ) (timeStep : Int) (timestamps : List (List Char)) :
    List (Mat × Mat) → Nat → Int → List Nat → List Prepared → Result
  | [], _, _, out, done => ⟨.exit 0, some out, done⟩
  | (rgb0, depth0) :: rest, i, timestamp, out, done =>
    match processFrame lib depthScale timeStep timestamps i timestamp rgb0 depth0 with
    | .error e => ⟨.threw e, some out, done⟩
    | .ok p =>
      loop lib depthScale timeStep timestamps rest (i + 1) p.timestamp
        (out ++ frameBytes p) (done ++ [p])

/-- The variable `timestamps` after line 89. -/
def timestampsOf (inp : Input) : List (List Char) :=
  if inp.inputTimestamps ≠ [] then inp.timestampLines else []

/-- The program. -/
def main (lib : Lib) (inp : Input) : Result :=
  if !inp.hasOut || !inp.hasDepthdir || !inp.hasRgbdir then
    ⟨.exit 1, inp.outFile, []⟩
  else if inp.rgbs.length = 0 ∨ inp.rgbs.length ≠ inp.depths.length then
    ⟨.exit 1, inp.outFile, []⟩
  else if inp.outFile.isSome then
    ⟨.exit 2, inp.outFile, []⟩
  else if inp.inputTimestamps ≠ [] ∧ inp.timestampLines.length ≠ inp.rgbs.length then
    ⟨.threw .timestampCount, inp.outFile, []⟩
  else
    loop lib inp.depthScale inp.timeStep (timestampsOf inp) (inp.rgbs.zip inp.depths) 0 0
      (writeInt 4 (toInt32 inp.rgbs.length)) []

/-! ## Reading a container back

The layout of the container as the specification gives it: a 32-bit frame
count, then per frame a 64-bit timestamp, two 32-bit byte lengths, the depth
bytes and the colour bytes. The reader below follows that description; it is
not part of the program. -/

/-- The number whose bytes, least significant first, are `bs`. -/
def leValue : List Nat → Nat
  | [] => 0
  | b :: bs => b + 256 * leValue bs

/-- The signed value of a `k`-byte two's complement representation. -/
def signedOf (k : Nat) (v : Nat) : Int :=
  if v < 2 ^ (8 * k - 1) then (v : Int) else (v : Int) - 2 ^ (8 * k)

/-- Reads a `k`-byte signed integer off the front of `bs`. -/
def readInt (k : Nat) (bs : List Nat) : Option (Int × List Nat) :=
  if bs.length < k then none else some (signedOf k (leValue (bs.take k)), bs.drop k)

/-- Reads `n` bytes off the front of `bs`. -/
def readBytes (n : Int) (bs : List Nat) : Option (List Nat × List Nat) :=
  if n < 0 ∨ (bs.length : Int) < n then none else some (bs.take n.toNat, bs.drop n.toNat)

/-- One frame record as read back. -/
structure Record where
  /-- the 64-bit timestamp field -/
  timestamp : Int
  /-- the depth byte length field -/
  depthLen : Int
  /-- the colour byte length field -/
  colorLen : Int
  /-- the depth payload -/
  depth : List Nat
  /-- the colour payload -/
  color : List Nat
  deriving DecidableEq

/-- Reads one frame record off the front of `bs`. -/
def readRecord (bs : List Nat) : Option (Record × List Nat) :=
  match readInt 8 bs with
  | none => none
  | some (t, bs1) =>
    match readInt 4 bs1 with
    | none => none
    | some (dl, bs2) =>
      match readInt 4 bs2 with
      | none => none
      | some (cl, bs3) =>
        match readBytes dl bs3 with
        | none => none
        | some (d, bs4) =>
          match readBytes cl bs4 with
          | none => none
          | some (c, bs5) => some (⟨t, dl, cl, d, c⟩, bs5)

/-- Reads `n` frame records off the front of `bs`. -/
def readRecords : Nat → List Nat → Option (List Record × List Nat)
  | 0, bs => some ([], bs)
  | n + 1, bs =>
    match readRecord bs with
    | none => none
    | some (r, rest) =>
      match readRecords n rest with
      | none => none
      | some (rs, rest2) => some (r :: rs, rest2)

/-- Reads a whole container: the header count, that many records, and
nothing left over. -/
def decodeContainer (bs : List Nat) : Option (Int × List Record) :=
  match readInt 4 bs with
  | none => none
  | some (n, rest) =>
    if n < 0 then none
    else
      match readRecords n.toNat rest with
      | none => none
      | some (rs, rest2) => if rest2 = [] then some (n, rs) else none

/-- The record a prepared frame should read back as. -/
def recordOf (p : Prepared) : Record :=
  ⟨p.timestamp, p.depth.data.length, p.rgb.data.length, p.depth.data, p.rgb.data⟩

/-- The layout of one frame record, for a timestamp and two payloads. -/
def recordLayout (p : Prepared) : List Nat :=
  writeInt 8 p.timestamp ++ leBytes 4 p.depth.data.length ++ leBytes 4 p.rgb.data.length ++
    p.depth.data ++ p.rgb.data

/-- The records of a list of frames, one after the other. -/
def layoutAll : List Prepared → List Nat
  | [] => []
  | p :: ps => recordLayout p ++ layoutAll ps

/-! ## A reference instance of the library parameters

It serves to run the program on the concrete inputs below. No theorem about
all runs depends on it. -/

/-- The number a string of decimal digits denotes. -/
def digitsValue (ds : List Char) : Nat :=
  ds.foldl (fun acc c => 10 * acc + (c.toNat - 48)) 0

/-- The characters `isspace` accepts in the C locale. -/
def isSpace (c : Char) : Bool := c.toNat = 32 || (9 ≤ c.toNat && c.toNat ≤ 13)

/-- An optional sign off the front of a text: whether it is a minus, and the
rest. -/
def readSign : List Char → Bool × List Char
  | c :: rest => if c = '-' then (true, rest) else if c = '+' then (false, rest) else (false, c :: rest)
  | [] => (false, [])

/-- The decimal exponent at the front of a text: `e` or `E`, an optional
sign and at least one digit; 0 when there is none. -/
def readExponent : List Char → Int
  | c :: rest =>
    if c = 'e' ∨ c = 'E' then
      let ds := (readSign rest).2.takeWhile Char.isDigit
      if ds = [] then 0
      else if (readSign rest).1 then -(digitsValue ds : Int) else (digitsValue ds : Int)
    else 0
  | [] => 0

/-- The value `mantissa * 10 ^ exponent`, with its sign. -/
def decimalValue (negative : Bool) (mantissa : Nat) (exponent : Int) : ℚ :=
  let num : Int := if negative then -(mantissa : Int) else (mantissa : Int)
  if 0 ≤ exponent then mkRat (num * 10 ^ exponent.toNat) 1 else mkRat num (10 ^ (-exponent).toNat)

/-- The `double` which `std::stod` returns for a text that starts, after
white space, with a decimal numeral (an optional sign, digits with an optional
point, an optional exponent), `inf` or `nan`: the `double` nearest to the
numeral, whatever follows it. Nothing, as `std::stod` throws, when there is
no numeral, or when the value is out of range (an infinity, or a non-zero
value below the normal range). Hexadecimal numerals are not covered. -/
def stodDecimal (s : List Char) : Option Dbl :=
  let signed := readSign (s.dropWhile isSpace)
  let body := signed.2
  let word := (body.take 3).map Char.toLower
  if word = "inf".toList then some (.inf signed.1)
  else if word = "nan".toList then some .nan
  else
    let ip := body.takeWhile Char.isDigit
    let afterInt := body.dropWhile Char.isDigit
    let fp := match afterInt with
      | c :: rest => if c = '.' then rest.takeWhile Char.isDigit else []
      | [] => []
    let afterFrac := match afterInt with
      | c :: rest => if c = '.' then rest.dropWhile Char.isDigit else afterInt
      | [] => []
    if ip = [] ∧ fp = [] then none
    else
      let v := decimalValue signed.1 (digitsValue (ip ++ fp))
        (readExponent afterFrac - (fp.length : Int))
      match roundToDouble v with
      | .finite r =>
        if v.num ≠ 0 ∧ (r.num = 0 ∨ floorLog2 r.num.natAbs r.den < -1022) then none
        else some (.finite r)
      | _ => none

/-- Rounding to the nearest integer, ties to even (`cvRound`). -/
def roundHalfEven (q : ℚ) : Int :=
  let f := Rat.floor q
  let r := q - f
  if r < 1 / 2 then f else if 1 / 2 < r then f + 1 else if f % 2 = 0 then f else f + 1

/-- The 16-bit sample an unsigned integer source sample converts to: scaled,
rounded, saturated, computed exactly. The concrete inputs below reach no
conversion of a signed or floating-point sample. -/
def scaleSample (scale : ℚ) (_depth : Nat) (bytes : List Nat) : Nat :=
  (max 0 (min 65535 (roundHalfEven (leValue bytes * scale)))).toNat

/-- The reference instance. -/
def refLib : Lib := ⟨stodDecimal, scaleSample⟩

/-! ## Notions used to state the properties -/

/-- All frame records of a list of frames, as the loop writes them. -/
def framesBytes : List Prepared → List Nat
  | [] => []
  | p :: ps => frameBytes p ++ framesBytes ps

/-- The buffer of a matrix holds exactly its pixels: the invariant of a
continuous `cv::Mat`. -/
def Mat.valid (m : Mat) : Prop := m.data.length = m.total * m.elemSize

instance (m : Mat) : Decidable m.valid := by unfold Mat.valid; infer_instance

/-- What `imread` with its default flag delivers when it can decode the
file: 8-bit samples, three channels, a buffer holding exactly the pixels. -/
def Mat.decodedColour (m : Mat) : Prop := m.depth = 0 ∧ m.channels = 3 ∧ m.valid

instance (m : Mat) : Decidable m.decodedColour := by unfold Mat.decodedColour; infer_instance

/-- Blue value of pixel `p` of a colour image as `imread` delivers it:
`imread` stores the channels of a pixel in the order blue, green, red. -/
def blueAt (m : Mat) (p : Nat) : Nat := m.data.getD (3 * p) 0

/-- Green value of pixel `p` of a colour image as `imread` delivers it. -/
def greenAt (m : Mat) (p : Nat) : Nat := m.data.getD (3 * p + 1) 0

/-- Red value of pixel `p` of a colour image as `imread` delivers it. -/
def redAt (m : Mat) (p : Nat) : Nat := m.data.getD (3 * p + 2) 0

/-- The frames `ps` are what the loop prepares, one after the other, from
the decoded pairs `jobs`, starting at index `i` with `timestamp = t`. -/
inductive Steps (lib : Lib) (depthScale : ℚ) (timeStep : Int) (timestamps : List (List Char)) :
    List (Mat × Mat) → Nat → Int → List Prepared → Prop where
  | nil (i : Nat) (t : Int) : Steps lib depthScale timeStep timestamps [] i t []
  | cons (i : Nat) (t : Int) (rgb0 depth0 : Mat) (rest : List (Mat × Mat)) (p : Prepared)
      (ps : List Prepared)
      (hp : processFrame lib depthScale timeStep timestamps i t rgb0 depth0 = .ok p)
      (hrest : Steps lib depthScale timeStep timestamps rest (i + 1) p.timestamp ps) :
      Steps lib depthScale timeStep timestamps ((rgb0, depth0) :: rest) i t (p :: ps)

/-- The value line 129 assigns to `timestamp` when `std::stod` is given
`text`: the `double` it returns, times `1e6`, converted to `int64_t`; nothing
when `std::stod` throws or the conversion is undefined. -/
def microsOf (lib : Lib) (text : List Char) : Option Int :=
  match lib.stod text with
  | none => none
  | some x => doubleToInt64 (timesMillion x)

/-- The text of a line before its first space, the whole line when it has
none. -/
def beforeSpace (line : List Char) : List Char := line.takeWhile (fun c => c ≠ ' ')

/-- A frame whose two payloads hold exactly the pixels and are shorter than
`2 ^ 31` bytes. -/
def Prepared.small (p : Prepared) : Prop :=
  p.depth.valid ∧ p.rgb.valid ∧ p.depth.data.length < 2 ^ 31 ∧ p.rgb.data.length < 2 ^ 31

instance (p : Prepared) : Decidable p.small := by unfold Prepared.small; infer_instance

/-! ## Concrete inputs -/

/-- A decoded 1x1 colour image with the given three bytes. -/
def colour1 (b g r : Nat) : Mat := ⟨1, 1, 0, 3, true, [b, g, r]⟩

/-- A decoded 1x1 single-channel 16-bit depth image with the given two bytes. -/
def depth1 (lo hi : Nat) : Mat := ⟨1, 1, 2, 1, true, [lo, hi]⟩

/-- Two frames, no timestamp file, a step of 41666 (24 frames per second),
an effective depth scale of 1, no file at the output path. -/
def twoFrames : Input :=
  { hasOut := true
    hasDepthdir := true
    hasRgbdir := true
    inputTimestamps := []
    timestampLines := []
    rgbs := [colour1 1 2 3, colour1 4 5 6]
    depths := [depth1 7 8, depth1 9 10]
    depthScale := 1
    timeStep := 41666
    outFile := none }

/-- The bytes the run on `twoFrames` writes. -/
def twoFramesOut : List Nat :=
  [2, 0, 0, 0,
   194, 162, 0, 0, 0, 0, 0, 0, 2, 0, 0, 0, 3, 0, 0, 0, 7, 8, 3, 2, 1,
   132, 69, 1, 0, 0, 0, 0, 0, 2, 0, 0, 0, 3, 0, 0, 0, 9, 10, 6, 5, 4]

/-- The frames the run on `twoFrames` writes. -/
def twoFramesWritten : List Prepared :=
  [⟨41666, depth1 7 8, colour1 3 2 1⟩, ⟨83332, depth1 9 10, colour1 6 5 4⟩]

/-- Two frames with a timestamp file of two lines, `2 a` and `1`. -/
def externalTwo : Input :=
  { hasOut := true
    hasDepthdir := true
    hasRgbdir := true
    inputTimestamps := "rgb.txt".toList
    timestampLines := ["2 a".toList, "1".toList]
    rgbs := [colour1 1 2 3, colour1 4 5 6]
    depths := [depth1 7 8, depth1 9 10]
    depthScale := 1
    timeStep := 41666
    outFile := none }

/-- The bytes the run on `externalTwo` writes. -/
def externalTwoOut : List Nat :=
  [2, 0, 0, 0,
   128, 132, 30, 0, 0, 0, 0, 0, 2, 0, 0, 0, 3, 0, 0, 0, 7, 8, 3, 2, 1,
   64, 66, 15, 0, 0, 0, 0, 0, 2, 0, 0, 0, 3, 0, 0, 0, 9, 10, 6, 5, 4]

/-- The frames the run on `externalTwo` writes. -/
def externalTwoWritten : List Prepared :=
  [⟨2000000, depth1 7 8, colour1 3 2 1⟩, ⟨1000000, depth1 9 10, colour1 6 5 4⟩]

/-- One frame with a timestamp file of the one line given. -/
def oneLine (line : List Char) : Input :=
  { externalTwo with
    timestampLines := [line]
    rgbs := [colour1 1 2 3]
    depths := [depth1 7 8] }

/-- The input `twoFrames` with a file of three bytes at the output path. -/
def existingOut : Input := { twoFrames with outFile := some [1, 2, 3] }

/-- Two colour images and one depth image, and a file of three bytes at the
output path. -/
def mismatchedExisting : Input :=
  { twoFrames with depths := [depth1 7 8], outFile := some [1, 2, 3] }

/-- The input `twoFrames` without the option `--out`. -/
def missingOut : Input := { twoFrames with hasOut := false }

/-- One frame whose colour file cannot be decoded. -/
def unreadableColour : Input :=
  { twoFrames with rgbs := [Mat.unread], depths := [depth1 7 8] }

/-- One frame whose depth file decodes to a 1x1 image of three 16-bit
channels. -/
def threeChannelDepth : Input :=
  { twoFrames with rgbs := [colour1 1 2 3], depths := [⟨1, 1, 2, 3, true, [1, 0, 2, 0, 3, 0]⟩] }

/-! # Theorems -/

/-! ## Machine integers and byte strings -/

theorem toInt64_idem_add (a b : Int) : toInt64 (toInt64 a + b) = toInt64 (a + b) := by
  unfold toInt64; omega

theorem toInt64_range (v : Int) : -2 ^ 63 ≤ toInt64 v ∧ toInt64 v < 2 ^ 63 := by
  unfold toInt64; omega

theorem toInt64_of_range (v : Int) (h1 : -2 ^ 63 ≤ v) (h2 : v < 2 ^ 63) : toInt64 v = v := by
  unfold toInt64; omega

theorem toInt32_of_range (v : Int) (h1 : -2 ^ 31 ≤ v) (h2 : v < 2 ^ 31) : toInt32 v = v := by
  unfold toInt32; omega

theorem length_leBytes (k v : Nat) : (leBytes k v).length = k := by
  induction k generalizing v with
  | zero => rfl
  | succ k ih => simp [leBytes, ih]

theorem leValue_leBytes (k v : Nat) : leValue (leBytes k v) = v % 256 ^ k := by
  induction k generalizing v with
  | zero => simp [leBytes, leValue, Nat.mod_one]
  | succ k ih =>
    simp only [leBytes, leValue, ih]
    rw [pow_succ, Nat.mul_comm (256 ^ k) 256, Nat.mod_mul]

theorem take_writeInt_append (k : Nat) (v : Int) (rest : List Nat) :
    (writeInt k v ++ rest).take k = writeInt k v := by
  have hl : (writeInt k v).length = k := length_leBytes _ _
  rw [List.take_append_of_le_length (by omega)]
  exact List.take_of_length_le (by omega)

theorem drop_writeInt_append (k : Nat) (v : Int) (rest : List Nat) :
    (writeInt k v ++ rest).drop k = rest := by
  have hl : (writeInt k v).length = k := length_leBytes _ _
  have := List.drop_left (writeInt k v) rest
  rwa [hl] at this

theorem readInt_writeInt4 (v : Int) (rest : List Nat) (h1 : -2 ^ 31 ≤ v) (h2 : v < 2 ^ 31) :
    readInt 4 (writeInt 4 v ++ rest) = some (v, rest) := by
  have hl : (writeInt 4 v).length = 4 := length_leBytes _ _
  unfold readInt
  rw [if_neg (by simp [List.length_append, hl]), take_writeInt_append, drop_writeInt_append]
  simp only [writeInt, leValue_leBytes, signedOf]
  congr 2
  split <;> omega

theorem readInt_writeInt8 (v : Int) (rest : List Nat) (h1 : -2 ^ 63 ≤ v) (h2 : v < 2 ^ 63) :
    readInt 8 (writeInt 8 v ++ rest) = some (v, rest) := by
  have hl : (writeInt 8 v).length = 8 := length_leBytes _ _
  unfold readInt
  rw [if_neg (by simp [List.length_append, hl]), take_writeInt_append, drop_writeInt_append]
  simp only [writeInt, leValue_leBytes, signedOf]
  congr 2
  split <;> omega

theorem writeInt4_natCast (n : Nat) (h : n < 2 ^ 31) : writeInt 4 (n : Int) = leBytes 4 n := by
  unfold writeInt
  congr 1
  omega

theorem readBytes_append (d rest : List Nat) :
    readBytes (d.length : Int) (d ++ rest) = some (d, rest) := by
  unfold readBytes
  rw [if_neg (by simp [List.length_append])]
  simp

/-! ## The loop -/

theorem loop_exit_steps (lib : Lib) (depthScale : ℚ) (timeStep : Int) (timestamps : List (List Char))
    (jobs : List (Mat × Mat)) :
    ∀ (i : Nat) (t : Int) (out : List Nat) (done : List Prepared),
      (loop lib depthScale timeStep timestamps jobs i t out done).outcome = .exit 0 →
      ∃ ps, Steps lib depthScale timeStep timestamps jobs i t ps ∧
        loop lib depthScale timeStep timestamps jobs i t out done =
          ⟨.exit 0, some (out ++ framesBytes ps), done ++ ps⟩ := by
  induction jobs with
  | nil =>
    intro i t out done _
    exact ⟨[], Steps.nil i t, by simp [loop, framesBytes]⟩
  | cons job rest ih =>
    obtain ⟨rgb0, depth0⟩ := job
    intro i t out done h
    simp only [loop] at h ⊢
    cases hp : processFrame lib depthScale timeStep timestamps i t rgb0 depth0 with
    | error e => rw [hp] at h; simp at h
    | ok p =>
      rw [hp] at h
      simp only at h ⊢
      obtain ⟨ps, hs, heq⟩ := ih (i + 1) p.timestamp (out ++ frameBytes p) (done ++ [p]) h
      refine ⟨p :: ps, Steps.cons i t rgb0 depth0 rest p ps hp hs, ?_⟩
      rw [heq]
      simp [framesBytes]

theorem loop_of_steps (lib : Lib) (depthScale : ℚ) (timeStep : Int) (timestamps : List (List Char))
    (jobs : List (Mat × Mat)) (i : Nat) (t : Int) (ps : List Prepared)
    (hs : Steps lib depthScale timeStep timestamps jobs i t ps) :
    ∀ (out : List Nat) (done : List Prepared),
      loop lib depthScale timeStep timestamps jobs i t out done =
        ⟨.exit 0, some (out ++ framesBytes ps), done ++ ps⟩ := by
  induction hs with
  | nil i t => intro out done; simp [loop, framesBytes]
  | cons i t rgb0 depth0 rest p ps hp _ ih =>
    intro out done
    simp only [loop, hp]
    rw [ih]
    simp [framesBytes]

theorem loop_frames_length (lib : Lib) (depthScale : ℚ) (timeStep : Int)
    (timestamps : List (List Char)) (jobs : List (Mat × Mat)) :
    ∀ (i : Nat) (t : Int) (out : List Nat) (done : List Prepared),
      ((loop lib depthScale timeStep timestamps jobs i t out done).frames.length
          = done.length + jobs.length →
        (loop lib depthScale timeStep timestamps jobs i t out done).outcome = .exit 0) ∧
      (loop lib depthScale timeStep timestamps jobs i t out done).frames.length
          ≤ done.length + jobs.length ∧
      (loop lib depthScale timeStep timestamps jobs i t out done).file ≠ none ∧
      (loop lib depthScale timeStep timestamps jobs i t out done).outcome ≠ .exit 1 ∧
      (loop lib depthScale timeStep timestamps jobs i t out done).outcome ≠ .exit 2 := by
  induction jobs with
  | nil => intro i t out done; simp [loop]
  | cons job rest ih =>
    obtain ⟨rgb0, depth0⟩ := job
    intro i t out done
    simp only [loop]
    cases hp : processFrame lib depthScale timeStep timestamps i t rgb0 depth0 with
    | error e => simp
    | ok p =>
      simp only
      have := ih (i + 1) p.timestamp (out ++ frameBytes p) (done ++ [p])
      simp only [List.length_append, List.length_cons, List.length_nil] at this ⊢
      refine ⟨fun h => this.1 (by omega), by omega, this.2.2.1, this.2.2.2⟩

theorem steps_length {lib : Lib} {depthScale : ℚ} {timeStep : Int} {timestamps : List (List Char)}
    {jobs : List (Mat × Mat)} {i : Nat} {t : Int} {ps : List Prepared}
    (hs : Steps lib depthScale timeStep timestamps jobs i t ps) : ps.length = jobs.length := by
  induction hs with
  | nil => rfl
  | cons _ _ _ _ _ _ _ _ _ ih => simp [ih]



/-! ## One frame -/

theorem processFrame_ok {lib : Lib} {depthScale : ℚ} {timeStep : Int}
    {timestamps : List (List Char)} {i : Nat} {t : Int} {rgb0 depth0 : Mat} {p : Prepared}
    (h : processFrame lib depthScale timeStep timestamps i t rgb0 depth0 = .ok p) :
    loadFrame rgb0 depth0 = .ok (p.rgb, depth0) ∧
      nextTimestamp lib timestamps timeStep i t = .ok p.timestamp ∧
      p.depth = normalizeDepth lib depthScale depth0 := by
  unfold processFrame at h
  cases hl : loadFrame rgb0 depth0 with
  | error e => rw [hl] at h; simp at h
  | ok pr =>
    obtain ⟨rgb, depth⟩ := pr
    rw [hl] at h
    simp only at h
    have hd : depth = depth0 := by
      unfold loadFrame at hl
      cases hc : cvtColorRGB2BGR rgb0 with
      | error e => rw [hc] at hl; simp at hl
      | ok m =>
        rw [hc] at hl
        simp only at hl
        split_ifs at hl
        simp only [Except.ok.injEq, Prod.mk.injEq] at hl
        exact hl.2.symm
    cases hn : nextTimestamp lib timestamps timeStep i t with
    | error e => rw [hn] at h; simp at h
    | ok t2 =>
      rw [hn] at h
      simp only [Except.ok.injEq] at h
      subst h
      subst hd
      exact ⟨rfl, rfl, rfl⟩

theorem loadFrame_ok {rgb0 depth rgb : Mat} {d : Mat} (h : loadFrame rgb0 depth = .ok (rgb, d)) :
    cvtColorRGB2BGR rgb0 = .ok rgb ∧ depth.total ≠ 0 ∧ rgb.total = depth.total ∧
      rgb.continuous = true ∧ depth.continuous = true := by
  unfold loadFrame at h
  cases hc : cvtColorRGB2BGR rgb0 with
  | error e => rw [hc] at h; simp at h
  | ok m =>
    rw [hc] at h
    simp only at h
    split_ifs at h with h1 h2 h3 h4
    simp only [Except.ok.injEq, Prod.mk.injEq] at h
    obtain ⟨rfl, -⟩ := h
    simp only [Bool.or_eq_true, Bool.not_eq_true', not_or, Bool.not_eq_false] at h4
    exact ⟨rfl, h2, not_not.mp h3, h4.1, h4.2⟩

theorem cvtColor_ok {src rgb : Mat} (h : cvtColorRGB2BGR src = .ok rgb) :
    src.total ≠ 0 ∧ (src.channels = 3 ∨ src.channels = 4) ∧
      rgb.rows = src.rows ∧ rgb.cols = src.cols ∧ rgb.depth = src.depth ∧ rgb.channels = 3 ∧
      rgb.data = swappedData (elemSize1 src.depth) src.elemSize src.data src.total := by
  unfold cvtColorRGB2BGR at h
  split_ifs at h with h1 h2 h3 h4 <;>
  · simp only [Except.ok.injEq] at h
    subst h
    refine ⟨h1, ?_, rfl, rfl, rfl, rfl, rfl⟩
    omega

/-! ## The run as a whole -/

theorem main_exit_zero {lib : Lib} {inp : Input} {out : List Nat} {ps : List Prepared}
    (h : main lib inp = ⟨.exit 0, some out, ps⟩) :
    inp.rgbs.length ≠ 0 ∧ inp.rgbs.length = inp.depths.length ∧ inp.outFile = none ∧
      (inp.inputTimestamps ≠ [] → inp.timestampLines.length = inp.rgbs.length) ∧
      Steps lib inp.depthScale inp.timeStep (timestampsOf inp) (inp.rgbs.zip inp.depths) 0 0 ps ∧
      out = writeInt 4 (toInt32 inp.rgbs.length) ++ framesBytes ps := by
  unfold main at h
  split_ifs at h with h1 h2 h3 h4
  · simp at h
  · simp at h
  · simp at h
  · simp at h
  have ho : (loop lib inp.depthScale inp.timeStep (timestampsOf inp) (inp.rgbs.zip inp.depths) 0 0
      (writeInt 4 (toInt32 inp.rgbs.length)) []).outcome = .exit 0 := by rw [h]
  obtain ⟨qs, hs, heq⟩ := loop_exit_steps lib inp.depthScale inp.timeStep (timestampsOf inp)
    (inp.rgbs.zip inp.depths) 0 0 _ [] ho
  rw [heq] at h
  simp only [List.nil_append, Result.mk.injEq, Option.some.injEq, true_and] at h
  obtain ⟨h5, h6⟩ := h
  subst h6
  refine ⟨by omega, by omega, by simpa using h3, ?_, hs, h5.symm⟩
  intro hne
  by_contra hc
  exact h4 ⟨hne, hc⟩

theorem steps_getElem? {lib : Lib} {depthScale : ℚ} {timeStep : Int}
    {timestamps : List (List Char)} {jobs : List (Mat × Mat)} {i : Nat} {t : Int}
    {ps : List Prepared} (hs : Steps lib depthScale timeStep timestamps jobs i t ps) :
    ∀ (k : Nat) (p : Prepared), ps[k]? = some p →
      ∃ rgb0 depth0 t0, jobs[k]? = some (rgb0, depth0) ∧
        processFrame lib depthScale timeStep timestamps (i + k) t0 rgb0 depth0 = .ok p := by
  induction hs with
  | nil => intro k p h; simp at h
  | cons i t rgb0 depth0 rest p ps hp _ ih =>
    intro k q hq
    cases k with
    | zero =>
      simp only [List.getElem?_cons_zero, Option.some.injEq] at hq
      subst hq
      exact ⟨rgb0, depth0, t, by simp, by simpa using hp⟩
    | succ k =>
      simp only [List.getElem?_cons_succ] at hq
      obtain ⟨r, d, t0, h1, h2⟩ := ih k q hq
      refine ⟨r, d, t0, by simpa using h1, ?_⟩
      rw [← h2]; congr 1; omega

/-- Every frame written by a run that returns 0 is the result of lines 110 to
132 on the pair of decoded images at its index. -/
theorem main_frame {lib : Lib} {inp : Input} {out : List Nat} {ps : List Prepared}
    (h : main lib inp = ⟨.exit 0, some out, ps⟩) (k : Nat) (p : Prepared) (hk : ps[k]? = some p) :
    ∃ rgb0 depth0 t0, inp.rgbs[k]? = some rgb0 ∧ inp.depths[k]? = some depth0 ∧
      processFrame lib inp.depthScale inp.timeStep (timestampsOf inp) k t0 rgb0 depth0 = .ok p := by
  obtain ⟨-, -, -, -, hs, -⟩ := main_exit_zero h
  obtain ⟨r, d, t0, hj, hp⟩ := steps_getElem? hs k p hk
  rw [List.getElem?_zip_eq_some] at hj
  exact ⟨r, d, t0, hj.1, hj.2, by simpa using hp⟩



/-! ## Buffers hold exactly the pixels -/

theorem length_swapFirstThird (es : Nat) (px : List Nat) (h : 3 * es ≤ px.length) :
    (swapFirstThird es px).length = 3 * es := by
  simp only [swapFirstThird, List.length_append, List.length_take, List.length_drop]
  omega

theorem length_pixelAt (data : List Nat) (sz p : Nat) (h : p * sz + sz ≤ data.length) :
    (pixelAt data sz p).length = sz := by
  simp only [pixelAt, List.length_take, List.length_drop]
  omega

theorem length_swappedData (es sz : Nat) (data : List Nat) (hsz : 3 * es ≤ sz) (n : Nat)
    (h : n * sz ≤ data.length) : (swappedData es sz data n).length = n * (3 * es) := by
  induction n with
  | zero => simp [swappedData]
  | succ n ih =>
    have e1 : (n + 1) * sz = n * sz + sz := Nat.succ_mul n sz
    have e2 : (n + 1) * (3 * es) = n * (3 * es) + 3 * es := Nat.succ_mul n (3 * es)
    simp only [swappedData, List.length_append]
    rw [ih (by omega), length_swapFirstThird es _ (by rw [length_pixelAt _ _ _ (by omega)]; exact hsz)]
    omega

theorem length_convertedData (lib : Lib) (scale : ℚ) (depth : Nat) (data : List Nat) (n : Nat) :
    (convertedData lib scale depth data n).length = 2 * n := by
  induction n with
  | zero => simp [convertedData]
  | succ n ih =>
    simp only [convertedData, List.length_append, ih, length_leBytes]
    omega

theorem cvtColor_valid {src rgb : Mat} (h : cvtColorRGB2BGR src = .ok rgb) (hv : src.valid) :
    rgb.valid := by
  obtain ⟨-, hc, hr, hcol, hd, hch, hdata⟩ := cvtColor_ok h
  unfold Mat.valid at hv ⊢
  have hsz : 3 * elemSize1 src.depth ≤ src.elemSize := by
    unfold Mat.elemSize
    exact Nat.mul_le_mul_right _ (by omega)
  rw [hdata, length_swappedData _ _ _ hsz _ (by rw [hv])]
  simp only [Mat.total, Mat.elemSize, hr, hcol, hd, hch]

theorem normalizeDepth_valid (lib : Lib) (depthScale : ℚ) (depth : Mat) (hv : depth.valid) :
    (normalizeDepth lib depthScale depth).valid := by
  unfold normalizeDepth
  split_ifs
  · simp only [Mat.valid, convertTo16U, length_convertedData, Mat.total, Mat.elemSize, CV_16U,
      elemSize1]
    ring
  · exact hv

theorem processFrame_valid {lib : Lib} {depthScale : ℚ} {timeStep : Int}
    {timestamps : List (List Char)} {i : Nat} {t : Int} {rgb0 depth0 : Mat} {p : Prepared}
    (h : processFrame lib depthScale timeStep timestamps i t rgb0 depth0 = .ok p)
    (hr : rgb0.valid) (hd : depth0.valid) : p.depth.valid ∧ p.rgb.valid := by
  obtain ⟨hl, -, hdep⟩ := processFrame_ok h
  obtain ⟨hc, -⟩ := loadFrame_ok hl
  exact ⟨by rw [hdep]; exact normalizeDepth_valid lib depthScale depth0 hd, cvtColor_valid hc hr⟩

theorem mkRat_million (q : ℚ) : mkRat (q.num * 1000000) q.den = q * 1000000 := by
  rw [Rat.mkRat_eq_div]
  push_cast
  rw [mul_div_right_comm, Rat.num_div_den]

theorem doubleToInt64_some {x : Dbl} {t : Int} (h : doubleToInt64 x = some t) :
    ∃ q, x = .finite q ∧ t = truncate q ∧ -2 ^ 63 ≤ truncate q ∧ truncate q < 2 ^ 63 := by
  cases x with
  | finite q =>
    simp only [doubleToInt64] at h
    split_ifs at h with hr
    simp only [Option.some.injEq] at h
    exact ⟨q, rfl, h.symm, hr.1, hr.2⟩
  | inf b => simp [doubleToInt64] at h
  | nan => simp [doubleToInt64] at h

/-- What `microsOf` yields is the seconds value `std::stod` returns,
multiplied by 1,000,000 as a `double` and truncated toward zero, an integer
within the range of `int64_t`. -/
theorem microsOf_some {lib : Lib} {text : List Char} {v : Int} (h : microsOf lib text = some v) :
    ∃ s q, lib.stod text = some (.finite s) ∧ roundToDouble (s * 1000000) = .finite q ∧
      v = truncate q ∧ -2 ^ 63 ≤ truncate q ∧ truncate q < 2 ^ 63 := by
  unfold microsOf at h
  cases hx : lib.stod text with
  | none => rw [hx] at h; simp at h
  | some x =>
    rw [hx] at h
    simp only at h
    obtain ⟨q, hq, hv, h1, h2⟩ := doubleToInt64_some h
    cases x with
    | finite s =>
      simp only [timesMillion, mkRat_million] at hq
      exact ⟨s, q, rfl, hq, hv, h1, h2⟩
    | inf b => simp [timesMillion] at hq
    | nan => simp [timesMillion] at hq

theorem nextTimestamp_external {lib : Lib} {timestamps : List (List Char)} {timeStep : Int}
    {i : Nat} {t t2 : Int} (hne : timestamps.length ≠ 0)
    (h : nextTimestamp lib timestamps timeStep i t = .ok t2) :
    microsOf lib (timestampStr (timestamps.getD i [])) = some t2 := by
  unfold nextTimestamp at h
  rw [if_pos hne] at h
  unfold microsOf
  cases hx : lib.stod (timestampStr (timestamps.getD i [])) with
  | none => rw [hx] at h; simp at h
  | some x =>
    rw [hx] at h
    simp only at h ⊢
    cases hc : doubleToInt64 (timesMillion x) with
    | none => rw [hc] at h; simp at h
    | some v =>
      rw [hc] at h
      simp only [Except.ok.injEq] at h
      rw [h]

theorem nextTimestamp_range {lib : Lib} {timestamps : List (List Char)} {timeStep : Int} {i : Nat}
    {t t2 : Int} (h : nextTimestamp lib timestamps timeStep i t = .ok t2) :
    -2 ^ 63 ≤ t2 ∧ t2 < 2 ^ 63 := by
  by_cases hne : timestamps.length ≠ 0
  · obtain ⟨s, q, -, -, rfl, h1, h2⟩ := microsOf_some (nextTimestamp_external hne h)
    exact ⟨h1, h2⟩
  · unfold nextTimestamp at h
    rw [if_neg hne] at h
    simp only [Except.ok.injEq] at h
    rw [← h]; exact toInt64_range _

/-! ## Writing and reading back -/

theorem frameBytes_eq_recordLayout (p : Prepared) (h : p.small) : frameBytes p = recordLayout p := by
  obtain ⟨hd, hr, hdl, hrl⟩ := h
  unfold Mat.valid at hd hr
  have e1 : depthSize p = (p.depth.data.length : Int) := by
    unfold depthSize
    rw [← hd]
    rw [Nat.mod_eq_of_lt (by omega)]
    exact toInt32_of_range _ (by omega) (by omega)
  have e2 : rgbSize p = (p.rgb.data.length : Int) := by
    unfold rgbSize
    rw [← hr]
    rw [Nat.mod_eq_of_lt (by omega)]
    exact toInt32_of_range _ (by omega) (by omega)
  have s1 : ∀ (l : List Nat), streamWrite l (l.length : Int) = l := by
    intro l
    unfold streamWrite
    split_ifs with h0
    · have : l.length = 0 := by omega
      exact (List.length_eq_zero.mp this).symm
    · simp
  unfold frameBytes recordLayout
  rw [e1, e2, s1, s1, writeInt4_natCast _ hdl, writeInt4_natCast _ hrl]

theorem readRecord_recordLayout (p : Prepared) (rest : List Nat)
    (ht : -2 ^ 63 ≤ p.timestamp ∧ p.timestamp < 2 ^ 63)
    (hd : p.depth.data.length < 2 ^ 31) (hr : p.rgb.data.length < 2 ^ 31) :
    readRecord (recordLayout p ++ rest) = some (recordOf p, rest) := by
  unfold readRecord recordLayout
  simp only [List.append_assoc]
  rw [readInt_writeInt8 _ _ ht.1 ht.2]
  simp only
  rw [← writeInt4_natCast _ hd, readInt_writeInt4 _ _ (by omega) (by omega)]
  simp only
  rw [← writeInt4_natCast _ hr, readInt_writeInt4 _ _ (by omega) (by omega)]
  simp only
  rw [readBytes_append]
  simp only
  rw [readBytes_append]
  rfl

theorem readRecords_layoutAll (ps : List Prepared) (rest : List Nat)
    (h : ∀ p ∈ ps, (-2 ^ 63 ≤ p.timestamp ∧ p.timestamp < 2 ^ 63) ∧
      p.depth.data.length < 2 ^ 31 ∧ p.rgb.data.length < 2 ^ 31) :
    readRecords ps.length (layoutAll ps ++ rest) = some (ps.map recordOf, rest) := by
  induction ps with
  | nil => simp [readRecords, layoutAll]
  | cons p ps ih =>
    have hp := h p (List.mem_cons_self _ _)
    simp only [List.length_cons, readRecords, layoutAll, List.append_assoc]
    rw [readRecord_recordLayout p _ hp.1 hp.2.1 hp.2.2]
    simp only
    rw [ih (fun q hq => h q (List.mem_cons_of_mem _ hq))]
    simp

theorem framesBytes_eq_layoutAll (ps : List Prepared) (h : ∀ p ∈ ps, p.small) :
    framesBytes ps = layoutAll ps := by
  induction ps with
  | nil => rfl
  | cons p ps ih =>
    simp only [framesBytes, layoutAll]
    rw [frameBytes_eq_recordLayout p (h p (List.mem_cons_self _ _)),
      ih (fun q hq => h q (List.mem_cons_of_mem _ hq))]



theorem main_twoFrames : main refLib twoFrames = ⟨.exit 0, some twoFramesOut, twoFramesWritten⟩ := by
  decide

theorem mem_frames_small {lib : Lib} {inp : Input} {out : List Nat} {ps : List Prepared}
    (hrun : main lib inp = ⟨.exit 0, some out, ps⟩)
    (hrgb : ∀ m ∈ inp.rgbs, m.valid) (hdepth : ∀ m ∈ inp.depths, m.valid)
    (p : Prepared) (hp : p ∈ ps) :
    p.depth.valid ∧ p.rgb.valid ∧ -2 ^ 63 ≤ p.timestamp ∧ p.timestamp < 2 ^ 63 := by
  obtain ⟨k, hk⟩ := List.getElem?_of_mem hp
  obtain ⟨r, d, t0, hr, hd, hproc⟩ := main_frame hrun k p hk
  obtain ⟨hv1, hv2⟩ := processFrame_valid hproc (hrgb r (List.getElem?_mem hr))
    (hdepth d (List.getElem?_mem hd))
  obtain ⟨-, hts, -⟩ := processFrame_ok hproc
  exact ⟨hv1, hv2, nextTimestamp_range hts⟩

/-- C1. For a run that returns 0 on `n` frames, with `n < 2 ^ 31`, decoded
images whose buffers hold exactly their pixels, and every payload shorter than
`2 ^ 31` bytes: `n` frames are written; the bytes written are the 4-byte count
`n` followed, frame by frame in index order, by the 8-byte timestamp, the
4-byte depth length, the 4-byte colour length, the depth bytes and the colour
bytes; and reading that byte string back by this layout uses every byte and
gives the count `n` and, per frame, the timestamp, the two payloads unchanged
and two length fields equal to the lengths of the payloads. -/
theorem container_roundtrip (lib : Lib) (inp : Input) (out : List Nat) (ps : List Prepared)
    (hrun : main lib inp = ⟨.exit 0, some out, ps⟩)
    (hn : inp.rgbs.length < 2 ^ 31)
    (hrgb : ∀ m ∈ inp.rgbs, m.valid) (hdepth : ∀ m ∈ inp.depths, m.valid)
    (hsz : ∀ p ∈ ps, p.depth.data.length < 2 ^ 31 ∧ p.rgb.data.length < 2 ^ 31) :
    ps.length = inp.rgbs.length ∧
      out = leBytes 4 inp.rgbs.length ++ layoutAll ps ∧
      decodeContainer out = some ((inp.rgbs.length : Int), ps.map recordOf) := by
  obtain ⟨-, -, -, -, hs, hout⟩ := main_exit_zero hrun
  have hlen : ps.length = inp.rgbs.length := by
    rw [steps_length hs, List.length_zip]
    obtain ⟨-, h2, -⟩ := main_exit_zero hrun
    omega
  have hsmall : ∀ p ∈ ps, p.small := fun p hp =>
    have h1 := mem_frames_small hrun hrgb hdepth p hp
    ⟨h1.1, h1.2.1, (hsz p hp).1, (hsz p hp).2⟩
  have hw : writeInt 4 (toInt32 (inp.rgbs.length : Int)) = leBytes 4 inp.rgbs.length := by
    rw [toInt32_of_range _ (by omega) (by omega), writeInt4_natCast _ hn]
  have hout2 : out = leBytes 4 inp.rgbs.length ++ layoutAll ps := by
    rw [hout, hw, framesBytes_eq_layoutAll ps hsmall]
  refine ⟨hlen, hout2, ?_⟩
  rw [hout2, ← writeInt4_natCast _ hn]
  unfold decodeContainer
  rw [readInt_writeInt4 _ _ (by omega) (by omega)]
  simp only
  rw [if_neg (by omega)]
  have hrd := readRecords_layoutAll ps [] (fun p hp =>
    ⟨(mem_frames_small hrun hrgb hdepth p hp).2.2, hsz p hp⟩)
  rw [List.append_nil, hlen] at hrd
  rw [Int.toNat_ofNat, hrd]
  simp

theorem container_roundtrip_witness :
    twoFramesWritten.length = twoFrames.rgbs.length ∧
      twoFramesOut = leBytes 4 twoFrames.rgbs.length ++ layoutAll twoFramesWritten ∧
      decodeContainer twoFramesOut
        = some ((twoFrames.rgbs.length : Int), twoFramesWritten.map recordOf) :=
  container_roundtrip refLib twoFrames twoFramesOut twoFramesWritten main_twoFrames
    (by decide) (by decide) (by decide) (by decide)



theorem main_externalTwo :
    main refLib externalTwo = ⟨.exit 0, some externalTwoOut, externalTwoWritten⟩ := by
  decide

/-! ## Timestamps -/

theorem steps_synthesized {lib : Lib} {depthScale : ℚ} {timeStep : Int}
    {jobs : List (Mat × Mat)} {i : Nat} {t : Int} {ps : List Prepared}
    (hs : Steps lib depthScale timeStep [] jobs i t ps) :
    ∀ (k : Nat) (p : Prepared), ps[k]? = some p →
      p.timestamp = toInt64 (t + ((k : Int) + 1) * timeStep) := by
  induction hs with
  | nil => intro k p h; simp at h
  | cons i t rgb0 depth0 rest p ps hp _ ih =>
    have h0 : p.timestamp = toInt64 (t + timeStep) := by
      obtain ⟨-, hn, -⟩ := processFrame_ok hp
      simpa [nextTimestamp] using hn.symm
    intro k q hq
    cases k with
    | zero =>
      simp only [List.getElem?_cons_zero, Option.some.injEq] at hq
      subst hq
      simpa using h0
    | succ k =>
      simp only [List.getElem?_cons_succ] at hq
      rw [ih k q hq, h0, toInt64_idem_add]
      congr 1
      push_cast
      ring

theorem steps_external {lib : Lib} {depthScale : ℚ} {timeStep : Int}
    {timestamps : List (List Char)} (hne : timestamps ≠ [])
    {jobs : List (Mat × Mat)} {i : Nat} {t : Int} {ps : List Prepared}
    (hs : Steps lib depthScale timeStep timestamps jobs i t ps) :
    ∀ (k : Nat) (p : Prepared), ps[k]? = some p →
      microsOf lib (timestampStr (timestamps.getD (i + k) [])) = some p.timestamp := by
  intro k p hk
  obtain ⟨r, d, t0, -, hproc⟩ := steps_getElem? hs k p hk
  obtain ⟨-, hn, -⟩ := processFrame_ok hproc
  exact nextTimestamp_external (by simpa using hne) hn

theorem findFrom_space (s : List Char) :
    ∀ i : Nat, findFrom ' ' s i = if ' ' ∈ s then i + (beforeSpace s).length else npos := by
  induction s with
  | nil => intro i; simp [findFrom]
  | cons c s ih =>
    intro i
    by_cases hc : c = ' '
    · subst hc
      simp [findFrom, beforeSpace]
    · have hc2 : ¬ ' ' = c := fun h => hc h.symm
      simp only [findFrom, if_neg hc, ih (i + 1), List.mem_cons, hc2, false_or, beforeSpace]
      rw [List.takeWhile_cons_of_pos (by simpa using hc)]
      split_ifs
      · simp only [List.length_cons, beforeSpace]; omega
      · rfl

theorem take_length_beforeSpace (s : List Char) : s.take (beforeSpace s).length = beforeSpace s := by
  induction s with
  | nil => rfl
  | cons c s ih =>
    by_cases hc : c = ' '
    · subst hc
      simp [beforeSpace]
    · unfold beforeSpace at ih ⊢
      rw [List.takeWhile_cons_of_pos (by simpa using hc)]
      simp only [List.length_cons, List.take_succ_cons, ih]

theorem length_beforeSpace_le (s : List Char) : (beforeSpace s).length ≤ s.length := by
  have := congrArg List.length (take_length_beforeSpace s)
  rw [List.length_take] at this
  omega

theorem beforeSpace_of_no_space (s : List Char) (h : ' ' ∉ s) : beforeSpace s = s := by
  unfold beforeSpace
  rw [List.takeWhile_eq_self_iff]
  intro x hx
  have : x ≠ ' ' := fun e => h (e ▸ hx)
  simpa using this

/-- Lines 123 and 126 select the text before the first space, and the whole
line when it has no space, for a line shorter than `2 ^ 31` characters. -/
theorem timestampStr_eq_beforeSpace (line : List Char) (h : line.length < 2 ^ 31) :
    timestampStr line = beforeSpace line := by
  unfold timestampStr findSpace substr0
  rw [findFrom_space]
  have hle := length_beforeSpace_le line
  split_ifs with hs
  · have e1 : toInt32 ((0 + (beforeSpace line).length : Nat) : Int)
        = ((beforeSpace line).length : Int) := by
      rw [Nat.zero_add]; exact toInt32_of_range _ (by omega) (by omega)
    rw [e1]
    have e2 : toSizeT ((beforeSpace line).length : Int) = (beforeSpace line).length := by
      unfold toSizeT; omega
    rw [e2, Nat.min_eq_left hle, take_length_beforeSpace]
  · have e1 : toSizeT (toInt32 (npos : Int)) = 2 ^ 64 - 1 := by
      unfold toSizeT toInt32 npos; omega
    rw [e1, Nat.min_eq_right (by omega), List.take_length, beforeSpace_of_no_space line hs]



/-- C2, as stated, fails on two frames with a step of 41666: the claim gives
frame `i` the timestamp `i * step`, that is 0 and 41666; the run writes 41666
and 83332, and the container read back shows the same. -/
theorem synthesized_timestamps_counterexample :
    ¬ (∀ (i : Nat) (p : Prepared), (main refLib twoFrames).frames[i]? = some p →
        p.timestamp = (i : Int) * twoFrames.timeStep) ∧
      (main refLib twoFrames).frames.map (fun p => p.timestamp) = [41666, 83332] ∧
      ((main refLib twoFrames).file.bind decodeContainer).map
        (fun c => c.2.map (fun r => r.timestamp)) = some [41666, 83332] := by
  refine ⟨fun h => ?_, by decide, by decide⟩
  have h0 := h 0 ⟨41666, depth1 7 8, colour1 3 2 1⟩ (by decide)
  revert h0
  decide

/-- C2, amended. Without a timestamp file, in a run that returns 0, the
timestamp written for frame `i` is `(i + 1) * step` as a 64-bit integer, where
`step` is the value of `timeStep`; it is exactly `(i + 1) * step` when that
fits in 64 bits. Frame 0 carries `step`, not 0. -/
theorem synthesized_timestamps (lib : Lib) (inp : Input) (out : List Nat) (ps : List Prepared)
    (hrun : main lib inp = ⟨.exit 0, some out, ps⟩) (hmode : inp.inputTimestamps = [])
    (i : Nat) (p : Prepared) (hp : ps[i]? = some p) :
    p.timestamp = toInt64 (((i : Int) + 1) * inp.timeStep) ∧
      (-2 ^ 63 ≤ ((i : Int) + 1) * inp.timeStep → ((i : Int) + 1) * inp.timeStep < 2 ^ 63 →
        p.timestamp = ((i : Int) + 1) * inp.timeStep) := by
  obtain ⟨-, -, -, -, hs, -⟩ := main_exit_zero hrun
  have hts : timestampsOf inp = [] := by simp [timestampsOf, hmode]
  rw [hts] at hs
  have h := steps_synthesized hs i p hp
  rw [Int.zero_add] at h
  exact ⟨h, fun h1 h2 => by rw [h, toInt64_of_range _ h1 h2]⟩

theorem synthesized_timestamps_witness :
    (⟨83332, depth1 9 10, colour1 6 5 4⟩ : Prepared).timestamp
        = toInt64 (((1 : Nat) + 1 : Int) * twoFrames.timeStep) ∧
      (-2 ^ 63 ≤ ((1 : Nat) + 1 : Int) * twoFrames.timeStep →
        ((1 : Nat) + 1 : Int) * twoFrames.timeStep < 2 ^ 63 →
        (⟨83332, depth1 9 10, colour1 6 5 4⟩ : Prepared).timestamp
          = ((1 : Nat) + 1 : Int) * twoFrames.timeStep) :=
  synthesized_timestamps refLib twoFrames twoFramesOut twoFramesWritten main_twoFrames
    (by decide) 1 ⟨83332, depth1 9 10, colour1 6 5 4⟩ (by decide)

theorem line_value_written (lib : Lib) (inp : Input) (out : List Nat) (ps : List Prepared)
    (hrun : main lib inp = ⟨.exit 0, some out, ps⟩) (hmode : inp.inputTimestamps ≠ [])
    (hlines : ∀ line ∈ inp.timestampLines, line.length < 2 ^ 31)
    (i : Nat) (p : Prepared) (hp : ps[i]? = some p) :
    ∃ line, inp.timestampLines[i]? = some line ∧
      microsOf lib (beforeSpace line) = some p.timestamp := by
  obtain ⟨hn0, -, -, hcount, hs, -⟩ := main_exit_zero hrun
  have hts : timestampsOf inp = inp.timestampLines := by simp [timestampsOf, hmode]
  rw [hts] at hs
  have hne : inp.timestampLines ≠ [] := by
    intro h
    have := hcount hmode
    rw [h] at this
    exact hn0 this.symm
  have hv := steps_external hne hs i p hp
  have hi : i < inp.timestampLines.length := by
    have h1 : i < ps.length := by
      rcases List.getElem?_eq_some.mp hp with ⟨h, -⟩
      exact h
    rw [steps_length hs, List.length_zip] at h1
    rw [hcount hmode]
    omega
  have hget : inp.timestampLines[i]? = some (inp.timestampLines[i]) :=
    List.getElem?_eq_getElem hi
  rw [Nat.zero_add, List.getD_eq_getElem?_getD, hget, Option.getD_some,
    timestampStr_eq_beforeSpace _ (hlines _ (List.getElem?_mem hget))] at hv
  exact ⟨_, hget, hv⟩

/-- Rounding to `double` on concrete values: the `double` written `0.1` is
`3602879701896397 / 2 ^ 55`; a value a `double` holds stays as it is; halfway
between two neighbours the one with the even last digit is taken, so
`2 ^ 53 + 1` gives `2 ^ 53` and `2 ^ 53 + 3` gives `2 ^ 53 + 4`. -/
theorem roundToDouble_examples :
    roundToDouble (mkRat 1 10) = .finite (mkRat 3602879701896397 (2 ^ 55)) ∧
      roundToDouble (mkRat (-3) 2) = .finite (mkRat (-3) 2) ∧
      roundToDouble (mkRat (2 ^ 53 + 1) 1) = .finite (mkRat (2 ^ 53) 1) ∧
      roundToDouble (mkRat (2 ^ 53 + 3) 1) = .finite (mkRat (2 ^ 53 + 4) 1) := by
  refine ⟨by decide, by decide, by decide, by decide⟩

/-- The arithmetic of line 129 on concrete lines. The line `1.001 a` gives
the timestamp 1000999, not 1001000: the `double` nearest to 1.001 lies below
it and its product with `1e6` rounds to a `double` below 1001000. The line
`0.000001` gives 1: the product rounds to 1. A line that starts with a space
hands `std::stod` the empty text, and the run ends with its exception. A line
`inf` ends the run at the undefined conversion. -/
theorem line_129_examples :
    (main refLib (oneLine "1.001 a".toList)).frames.map (fun p => p.timestamp) = [1000999] ∧
      (main refLib (oneLine "0.000001".toList)).frames.map (fun p => p.timestamp) = [1] ∧
      (main refLib (oneLine "1305031102.175304 rgb/1.png".toList)).frames.map
        (fun p => p.timestamp) = [1305031102175304] ∧
      (main refLib (oneLine " 2".toList)).outcome = .threw .stod ∧
      (main refLib (oneLine "inf".toList)).outcome = .threw .undefinedConversion := by
  refine ⟨by decide, by decide, by decide, by decide, by decide⟩

/-- C7. With a timestamp file whose lines are shorter than `2 ^ 31`
characters, in a run that returns 0, the timestamp written for frame `i` is
obtained from line `i` alone: the text of the line before its first space (the
whole line when it has no space) is parsed by `std::stod` to a finite seconds
value `s`; `s` is multiplied by 1,000,000, the product being a `double`, that
is the exact product rounded to the nearest `double`; and the product is
truncated toward zero to an integer, which lies within the range of
`int64_t` and is the timestamp. Nothing but line `i` enters the value: any
other such run, whatever its other lines, its step and its images, writes the
same timestamp for frame `i` when its line `i` is the same. -/
theorem external_timestamps (lib : Lib) (inp : Input) (out : List Nat) (ps : List Prepared)
    (hrun : main lib inp = ⟨.exit 0, some out, ps⟩) (hmode : inp.inputTimestamps ≠ [])
    (hlines : ∀ line ∈ inp.timestampLines, line.length < 2 ^ 31)
    (i : Nat) (p : Prepared) (hp : ps[i]? = some p) :
    (∃ line s q, inp.timestampLines[i]? = some line ∧
      lib.stod (beforeSpace line) = some (.finite s) ∧
      roundToDouble (s * 1000000) = .finite q ∧
      p.timestamp = truncate q ∧ -2 ^ 63 ≤ truncate q ∧ truncate q < 2 ^ 63 ∧
      (' ' ∉ line → beforeSpace line = line)) ∧
    (∀ (inp2 : Input) (out2 : List Nat) (ps2 : List Prepared) (q : Prepared),
      main lib inp2 = ⟨.exit 0, some out2, ps2⟩ → inp2.inputTimestamps ≠ [] →
      (∀ line ∈ inp2.timestampLines, line.length < 2 ^ 31) →
      inp2.timestampLines[i]? = inp.timestampLines[i]? → ps2[i]? = some q →
      q.timestamp = p.timestamp) := by
  obtain ⟨line, hline, hv⟩ := line_value_written lib inp out ps hrun hmode hlines i p hp
  obtain ⟨s, q, hs, hq, hpq, h1, h2⟩ := microsOf_some hv
  refine ⟨⟨line, s, q, hline, hs, hq, hpq, h1, h2, beforeSpace_of_no_space line⟩, ?_⟩
  intro inp2 out2 ps2 p2 hrun2 hmode2 hlines2 hsame hp2
  obtain ⟨line2, hline2, hw⟩ :=
    line_value_written lib inp2 out2 ps2 hrun2 hmode2 hlines2 i p2 hp2
  rw [hsame, hline] at hline2
  simp only [Option.some.injEq] at hline2
  subst hline2
  rw [hv] at hw
  simp only [Option.some.injEq] at hw
  exact hw.symm

theorem external_timestamps_witness :
    ∃ line s q, externalTwo.timestampLines[0]? = some line ∧
      refLib.stod (beforeSpace line) = some (.finite s) ∧
      roundToDouble (s * 1000000) = .finite q ∧
      (⟨2000000, depth1 7 8, colour1 3 2 1⟩ : Prepared).timestamp = truncate q ∧
      -2 ^ 63 ≤ truncate q ∧ truncate q < 2 ^ 63 ∧
      (' ' ∉ line → beforeSpace line = line) :=
  (external_timestamps refLib externalTwo externalTwoOut externalTwoWritten main_externalTwo
    (by decide) (by decide) 0 ⟨2000000, depth1 7 8, colour1 3 2 1⟩ (by decide)).1

/-- C8, as stated, fails with a timestamp file: for the lines `2 a` and `1`
the run writes the timestamps 2000000 and 1000000, in that order. -/
theorem timestamps_monotone_counterexample :
    ¬ (∀ (i j : Nat) (p q : Prepared), i < j →
        (main refLib externalTwo).frames[i]? = some p →
        (main refLib externalTwo).frames[j]? = some q → p.timestamp ≤ q.timestamp) ∧
      (main refLib externalTwo).outcome = .exit 0 ∧
      (main refLib externalTwo).frames.map (fun p => p.timestamp) = [2000000, 1000000] := by
  refine ⟨fun h => ?_, by decide, by decide⟩
  have h0 := h 0 1 ⟨2000000, depth1 7 8, colour1 3 2 1⟩ ⟨1000000, depth1 9 10, colour1 6 5 4⟩
    (by decide) (by decide) (by decide)
  revert h0
  decide

/-- C8, amended. In a run that returns 0 the written timestamps are monotonic
in the frame index in these two cases: without a timestamp file, when the step
is not negative and `n * step` fits in 64 bits; with a timestamp file whose
lines are shorter than `2 ^ 31` characters, when the values of the lines are
themselves in order. The program neither sorts nor checks the values of the
file. -/
theorem timestamps_monotone (lib : Lib) (inp : Input) (out : List Nat) (ps : List Prepared)
    (hrun : main lib inp = ⟨.exit 0, some out, ps⟩)
    (hcase :
      (inp.inputTimestamps = [] ∧ 0 ≤ inp.timeStep ∧
        (inp.rgbs.length : Int) * inp.timeStep < 2 ^ 63) ∨
      (inp.inputTimestamps ≠ [] ∧ (∀ line ∈ inp.timestampLines, line.length < 2 ^ 31) ∧
        ∀ (i j : Nat) (a b : List Char) (v w : Int), i < j →
          inp.timestampLines[i]? = some a → inp.timestampLines[j]? = some b →
          microsOf lib (beforeSpace a) = some v → microsOf lib (beforeSpace b) = some w →
          v ≤ w))
    (i j : Nat) (p q : Prepared) (hij : i < j) (hp : ps[i]? = some p) (hq : ps[j]? = some q) :
    p.timestamp ≤ q.timestamp := by
  rcases hcase with ⟨hmode, hstep, hfit⟩ | ⟨hmode, hlines, hord⟩
  · obtain ⟨-, h2, -, -, hs, -⟩ := main_exit_zero hrun
    have hj : j < inp.rgbs.length := by
      have h1 : j < ps.length := by
        rcases List.getElem?_eq_some.mp hq with ⟨h, -⟩
        exact h
      rw [steps_length hs, List.length_zip] at h1
      omega
    have hts : timestampsOf inp = [] := by simp [timestampsOf, hmode]
    rw [hts] at hs
    have e1 := steps_synthesized hs i p hp
    have e2 := steps_synthesized hs j q hq
    rw [Int.zero_add] at e1 e2
    have b1 : ((i : Int) + 1) * inp.timeStep ≤ ((j : Int) + 1) * inp.timeStep :=
      Int.mul_le_mul_of_nonneg_right (by omega) hstep
    have b2 : ((j : Int) + 1) * inp.timeStep ≤ (inp.rgbs.length : Int) * inp.timeStep :=
      Int.mul_le_mul_of_nonneg_right (by omega) hstep
    have b0 : 0 ≤ ((i : Int) + 1) * inp.timeStep := Int.mul_nonneg (by omega) hstep
    rw [e1, e2, toInt64_of_range _ (by omega) (by omega), toInt64_of_range _ (by omega) (by omega)]
    exact b1
  · obtain ⟨a, ha, hv⟩ := line_value_written lib inp out ps hrun hmode hlines i p hp
    obtain ⟨b, hb, hw⟩ := line_value_written lib inp out ps hrun hmode hlines j q hq
    exact hord i j a b p.timestamp q.timestamp hij ha hb hv hw

theorem timestamps_monotone_witness :
    (⟨41666, depth1 7 8, colour1 3 2 1⟩ : Prepared).timestamp
      ≤ (⟨83332, depth1 9 10, colour1 6 5 4⟩ : Prepared).timestamp :=
  timestamps_monotone refLib twoFrames twoFramesOut twoFramesWritten main_twoFrames
    (Or.inl ⟨by decide, by decide, by decide⟩) 0 1 _ _ (by decide) (by decide) (by decide)



/-- C4. When a check made before the loop fails (the colour listing is empty
or differs in length from the depth listing, a file exists at the output path,
or a timestamp file is given whose line count differs from the frame count),
the file at the output path after the run is the one before the run, present
or absent; no frame is written and the run does not return 0. -/
theorem precheck_failure_keeps_file (lib : Lib) (inp : Input)
    (h : inp.rgbs.length = 0 ∨ inp.rgbs.length ≠ inp.depths.length ∨ inp.outFile.isSome = true ∨
      (inp.inputTimestamps ≠ [] ∧ inp.timestampLines.length ≠ inp.rgbs.length)) :
    (main lib inp).file = inp.outFile ∧ (main lib inp).frames = [] ∧
      (main lib inp).outcome ≠ .exit 0 := by
  unfold main
  split_ifs with h1 h2 h3 h4
  · simp
  · simp
  · simp
  · simp
  · exfalso
    rcases h with h | h | h | h
    · exact h2 (Or.inl h)
    · exact h2 (Or.inr h)
    · exact h3 h
    · exact h4 h

theorem precheck_failure_keeps_file_witness :
    (main refLib existingOut).file = existingOut.outFile ∧ (main refLib existingOut).frames = [] ∧
      (main refLib existingOut).outcome ≠ .exit 0 :=
  precheck_failure_keeps_file refLib existingOut (Or.inr (Or.inr (Or.inl (by decide))))

theorem processFrame_any_timestamp {lib : Lib} {depthScale : ℚ} {timeStep : Int}
    {timestamps : List (List Char)} {i : Nat} {t : Int} {rgb0 depth0 : Mat} {p : Prepared}
    (h : processFrame lib depthScale timeStep timestamps i t rgb0 depth0 = .ok p) (t2 : Int) :
    ∃ q, processFrame lib depthScale timeStep timestamps i t2 rgb0 depth0 = .ok q := by
  obtain ⟨hl, hn, -⟩ := processFrame_ok h
  unfold processFrame
  rw [hl]
  simp only
  unfold nextTimestamp at hn ⊢
  split_ifs at hn ⊢
  · cases hv : lib.stod (timestampStr (timestamps.getD i [])) with
    | none => rw [hv] at hn; simp at hn
    | some x =>
      rw [hv] at hn
      simp only at hn ⊢
      cases hc : doubleToInt64 (timesMillion x) with
      | none => rw [hc] at hn; simp at hn
      | some v => exact ⟨_, rfl⟩
  · exact ⟨_, rfl⟩

theorem steps_exist (lib : Lib) (depthScale : ℚ) (timeStep : Int) (timestamps : List (List Char))
    (jobs : List (Mat × Mat)) :
    ∀ (i : Nat) (t : Int),
      (∀ (k : Nat) (rgb0 depth0 : Mat), jobs[k]? = some (rgb0, depth0) →
        ∃ p, processFrame lib depthScale timeStep timestamps (i + k) 0 rgb0 depth0 = .ok p) →
      ∃ ps, Steps lib depthScale timeStep timestamps jobs i t ps := by
  induction jobs with
  | nil => intro i t _; exact ⟨[], Steps.nil i t⟩
  | cons job rest ih =>
    obtain ⟨rgb0, depth0⟩ := job
    intro i t h
    obtain ⟨p0, hp0⟩ := h 0 rgb0 depth0 (by simp)
    obtain ⟨p, hp⟩ := processFrame_any_timestamp hp0 t
    obtain ⟨ps, hps⟩ := ih (i + 1) p.timestamp (fun k r d hk => by
      have := h (k + 1) r d (by simpa using hk)
      rwa [show i + (k + 1) = i + 1 + k by omega] at this)
    exact ⟨p :: ps, Steps.cons i t rgb0 depth0 rest p ps (by simpa using hp) hps⟩

/-- C5. The run returns 1 when one of `--out`, `--depthdir`, `--rgbdir` is
missing; otherwise 1 when the colour listing is empty or differs in length from
the depth listing (whether or not a file exists at the output path); otherwise
2 when a file exists at the output path; otherwise 0 when all frames are
written, which happens when the timestamp file, if any, has one line per frame
and lines 110 to 132 raise no exception on any frame. -/
theorem exit_codes (lib : Lib) (inp : Input) :
    ((inp.hasOut = false ∨ inp.hasDepthdir = false ∨ inp.hasRgbdir = false) →
      (main lib inp).outcome = .exit 1) ∧
    ((inp.hasOut = true ∧ inp.hasDepthdir = true ∧ inp.hasRgbdir = true) →
      ((inp.rgbs.length = 0 ∨ inp.rgbs.length ≠ inp.depths.length) →
        (main lib inp).outcome = .exit 1) ∧
      ((inp.rgbs.length ≠ 0 ∧ inp.rgbs.length = inp.depths.length) →
        (inp.outFile.isSome = true → (main lib inp).outcome = .exit 2) ∧
        (inp.outFile = none →
          ((main lib inp).frames.length = inp.rgbs.length → (main lib inp).outcome = .exit 0) ∧
          ((inp.inputTimestamps ≠ [] → inp.timestampLines.length = inp.rgbs.length) →
            (∀ (i : Nat) (rgb0 depth0 : Mat), inp.rgbs[i]? = some rgb0 →
              inp.depths[i]? = some depth0 →
              ∃ p, processFrame lib inp.depthScale inp.timeStep (timestampsOf inp) i 0
                rgb0 depth0 = .ok p) →
            (main lib inp).outcome = .exit 0 ∧
              (main lib inp).frames.length = inp.rgbs.length)))) := by
  refine ⟨fun hmiss => ?_, fun hopt => ⟨fun hbad => ?_, fun hgood => ⟨fun hex => ?_, fun hno => ⟨fun hall => ?_, fun hcount hproc => ?_⟩⟩⟩⟩
  · unfold main
    rw [if_pos (by rcases hmiss with h | h | h <;> simp [h])]
  · unfold main
    rw [if_neg (by simp [hopt.1, hopt.2.1, hopt.2.2]), if_pos hbad]
  · unfold main
    rw [if_neg (by simp [hopt.1, hopt.2.1, hopt.2.2]), if_neg (by omega), if_pos hex]
  · unfold main at hall ⊢
    rw [if_neg (by simp [hopt.1, hopt.2.1, hopt.2.2]), if_neg (by omega),
      if_neg (by simp [hno])] at hall ⊢
    split_ifs at hall ⊢ with h4
    · simp only [List.length_nil] at hall
      omega
    · refine (loop_frames_length lib inp.depthScale inp.timeStep (timestampsOf inp)
        (inp.rgbs.zip inp.depths) 0 0 _ []).1 ?_
      rw [hall, List.length_zip]
      simp only [List.length_nil]
      omega
  · obtain ⟨ps, hps⟩ := steps_exist lib inp.depthScale inp.timeStep (timestampsOf inp)
      (inp.rgbs.zip inp.depths) 0 0 (fun k r d hk => by
        rw [List.getElem?_zip_eq_some] at hk
        simpa using hproc k r d hk.1 hk.2)
    have hlen := steps_length hps
    rw [List.length_zip] at hlen
    unfold main
    rw [if_neg (by simp [hopt.1, hopt.2.1, hopt.2.2]), if_neg (by omega),
      if_neg (by simp [hno]), if_neg (fun h => h.2 (hcount h.1)), loop_of_steps _ _ _ _ _ _ _ _ hps]
    refine ⟨rfl, ?_⟩
    simp only [List.nil_append]
    omega

theorem exit_codes_witness :
    (main refLib missingOut).outcome = .exit 1 ∧
      (main refLib mismatchedExisting).outcome = .exit 1 ∧
      (main refLib existingOut).outcome = .exit 2 ∧
      (main refLib twoFrames).outcome = .exit 0 :=
  ⟨(exit_codes refLib missingOut).1 (Or.inl (by decide)),
    ((exit_codes refLib mismatchedExisting).2 (by decide)).1 (Or.inr (by decide)),
    (((exit_codes refLib existingOut).2 (by decide)).2 (by decide)).1 (by decide),
    ((((exit_codes refLib twoFrames).2 (by decide)).2 (by decide)).2 (by decide)).1 (by decide)⟩



theorem cvtColor_error {src : Mat} {e : Err} (h : cvtColorRGB2BGR src = .error e) :
    e = .cvAssert := by
  unfold cvtColorRGB2BGR at h
  split_ifs at h <;> simp only [Except.error.injEq, reduceCtorEq] at h <;> exact h.symm

/-- For a colour image `cvtColor` accepts, the remaining checks of lines 115
to 117 decide in program order: depth image empty, pixel counts different,
a buffer not continuous. -/
theorem loadFrame_of_converted (rgb0 depth rgb : Mat) (h : cvtColorRGB2BGR rgb0 = .ok rgb) :
    loadFrame rgb0 depth =
      if depth.total = 0 then .error .depthRead
      else if rgb0.total ≠ depth.total then .error .sizeMismatch
      else if rgb.continuous = false ∨ depth.continuous = false then .error .notContinuous
      else .ok (rgb, depth) := by
  obtain ⟨h0, -, hr, hcol, -⟩ := cvtColor_ok h
  have ht : rgb.total = rgb0.total := by unfold Mat.total; rw [hr, hcol]
  unfold loadFrame
  rw [h]
  simp only
  rw [if_neg (by rw [ht]; exact h0), ht]
  by_cases h1 : depth.total = 0
  · simp [h1]
  · by_cases h2 : rgb0.total = depth.total
    · cases hc1 : rgb.continuous <;> cases hc2 : depth.continuous <;> simp [h1, h2]
    · simp [h1, h2]

/-- C6, evaluated on the program. When the colour file cannot be decoded,
`imread` returns an empty matrix and the `cvtColor` call of line 111, which
precedes the check of line 114, raises OpenCV's assertion error: loading fails
with that error whatever the depth image is, no input makes loading fail
with the error of line 114, and a run whose first colour file is unreadable
ends with the OpenCV error after writing the 4-byte header only. -/
theorem unreadable_colour_raises_cv_error :
    (∀ depth : Mat, loadFrame Mat.unread depth = .error .cvAssert) ∧
      (∀ rgb0 depth : Mat, loadFrame rgb0 depth ≠ .error .rgbRead) ∧
      main refLib unreadableColour = ⟨.threw .cvAssert, some [1, 0, 0, 0], []⟩ := by
  refine ⟨fun depth => rfl, fun rgb0 depth h => ?_, by decide⟩
  unfold loadFrame at h
  cases hc : cvtColorRGB2BGR rgb0 with
  | error e =>
    rw [hc] at h
    have := cvtColor_error hc
    subst this
    simp at h
  | ok rgb =>
    rw [hc] at h
    obtain ⟨h0, -, hr, hcol, -⟩ := cvtColor_ok hc
    have : rgb.total ≠ 0 := by
      unfold Mat.total at h0 ⊢
      rw [hr, hcol]; exact h0
    simp only at h
    rw [if_neg this] at h
    split_ifs at h <;> simp at h

/-- C3, evaluated on the program. For a depth file that decodes to a 1x1
image of three 16-bit channels, whatever the library computes per sample, the
frame passes the checks and `convertTo` keeps the three channels: the depth
length written is 6 bytes for one pixel, not 2, and the run returns 0 having
written 4 + 16 + 6 + 3 bytes. -/
theorem three_channel_depth_size (lib : Lib) :
    (main lib threeChannelDepth).outcome = .exit 0 ∧
      (main lib threeChannelDepth).frames.map depthSize = [6] ∧
      (main lib threeChannelDepth).frames.map (fun p => p.depth.total) = [1] ∧
      (main lib threeChannelDepth).frames.map rgbSize = [3] ∧
      (main lib threeChannelDepth).file.map List.length = some 29 := by
  refine ⟨by rfl, ?_, ?_, ?_, ?_⟩ <;>
  simp [main, threeChannelDepth, twoFrames, loop, processFrame, loadFrame, cvtColorRGB2BGR,
    Mat.total, colour1, nextTimestamp, timestampsOf, frameBytes, writeInt, length_leBytes,
    streamWrite, depthSize, rgbSize, normalizeDepth, convertTo16U, Mat.type, Mat.elemSize,
    elemSize1, CV_16U, CV_16UC1, toInt32, length_convertedData, length_swappedData, swappedData,
    swapFirstThird, pixelAt]



theorem streamWrite_length (l : List Nat) : streamWrite l (l.length : Int) = l := by
  unfold streamWrite
  split_ifs with h0
  · have : l.length = 0 := by omega
    exact (List.length_eq_zero.mp this).symm
  · simp

theorem depthSize_eq_length (p : Prepared) (hv : p.depth.valid) (hs : p.depth.data.length < 2 ^ 31) :
    depthSize p = (p.depth.data.length : Int) := by
  unfold Mat.valid at hv
  unfold depthSize
  rw [← hv, Nat.mod_eq_of_lt (by omega)]
  exact toInt32_of_range _ (by omega) (by omega)

theorem rgbSize_eq_length (p : Prepared) (hv : p.rgb.valid) (hs : p.rgb.data.length < 2 ^ 31) :
    rgbSize p = (p.rgb.data.length : Int) := by
  unfold Mat.valid at hv
  unfold rgbSize
  rw [← hv, Nat.mod_eq_of_lt (by omega)]
  exact toInt32_of_range _ (by omega) (by omega)

theorem elemSize1_of_mod (d : Nat) (h : d % 8 = 2) : elemSize1 d = 2 := by
  unfold elemSize1
  split <;> omega

/-- For a frame whose decoded depth image has one channel and whose colour
image was decoded to 8-bit samples, with fewer than `2 ^ 31 / 3` pixels, the
depth length written is twice the pixel count and the colour length three
times the pixel count. -/
theorem single_channel_sizes (lib : Lib) (inp : Input) (out : List Nat) (ps : List Prepared)
    (hrun : main lib inp = ⟨.exit 0, some out, ps⟩)
    (i : Nat) (p : Prepared) (d src : Mat) (hp : ps[i]? = some p)
    (hd : inp.depths[i]? = some d) (hsrc : inp.rgbs[i]? = some src)
    (hch : d.channels = 1) (h8 : src.depth = 0) (hsmall : 3 * d.total < 2 ^ 31) :
    depthSize p = 2 * (d.total : Int) ∧ rgbSize p = 3 * (d.total : Int) := by
  obtain ⟨r, d2, t0, hr, hd2, hproc⟩ := main_frame hrun i p hp
  rw [hd] at hd2
  rw [hsrc] at hr
  simp only [Option.some.injEq] at hd2 hr
  subst hd2
  subst hr
  obtain ⟨hl, -, hdep⟩ := processFrame_ok hproc
  obtain ⟨hc, -, htot, -⟩ := loadFrame_ok hl
  obtain ⟨-, -, hrows, hcols, hdepth, hchan, -⟩ := cvtColor_ok hc
  have e1 : p.depth.total * p.depth.elemSize = 2 * d.total := by
    rw [hdep]
    unfold normalizeDepth
    split_ifs with hcond
    · simp only [convertTo16U, Mat.total, Mat.elemSize, hch, CV_16U, elemSize1]
      ring
    · have ht : d.type = 2 := by
        have := not_or.mp hcond
        simpa [CV_16UC1] using this.2
      unfold Mat.type at ht
      rw [hch] at ht
      simp only [Mat.elemSize, hch, elemSize1_of_mod d.depth (by omega)]
      ring
  have e2 : p.rgb.total * p.rgb.elemSize = 3 * d.total := by
    rw [htot]
    simp only [Mat.elemSize, hchan, hdepth, h8, elemSize1]
    ring
  unfold depthSize rgbSize
  rw [e1, e2, Nat.mod_eq_of_lt (by omega), Nat.mod_eq_of_lt (by omega)]
  exact ⟨by rw [toInt32_of_range _ (by omega) (by omega)]; push_cast; ring,
    by rw [toInt32_of_range _ (by omega) (by omega)]; push_cast; ring⟩

/-- C9. In a run that returns 0 with an effective depth scale of 1, for every
frame whose decoded depth image has type `CV_16UC1`, the depth image written
is the decoded one, unchanged; and when its buffer holds exactly its pixels
and is shorter than `2 ^ 31` bytes, the depth payload written is that buffer,
byte for byte. -/
theorem depth_normalization_noop (lib : Lib) (inp : Input) (out : List Nat) (ps : List Prepared)
    (hrun : main lib inp = ⟨.exit 0, some out, ps⟩) (hscale : inp.depthScale = 1)
    (i : Nat) (p : Prepared) (d : Mat) (hp : ps[i]? = some p) (hd : inp.depths[i]? = some d)
    (htype : d.type = CV_16UC1) :
    p.depth = d ∧
      (d.valid → d.data.length < 2 ^ 31 → streamWrite p.depth.data (depthSize p) = d.data) := by
  obtain ⟨r, d2, t0, -, hd2, hproc⟩ := main_frame hrun i p hp
  rw [hd] at hd2
  simp only [Option.some.injEq] at hd2
  subst hd2
  obtain ⟨-, -, hdep⟩ := processFrame_ok hproc
  have hpd : p.depth = d := by
    rw [hdep]
    unfold normalizeDepth
    rw [if_neg (by simp [hscale, htype])]
  refine ⟨hpd, fun hv hs => ?_⟩
  rw [depthSize_eq_length p (by rw [hpd]; exact hv) (by rw [hpd]; exact hs), streamWrite_length, hpd]

theorem depth_normalization_noop_witness :
    (⟨41666, depth1 7 8, colour1 3 2 1⟩ : Prepared).depth = depth1 7 8 ∧
      ((depth1 7 8).valid → (depth1 7 8).data.length < 2 ^ 31 →
        streamWrite (⟨41666, depth1 7 8, colour1 3 2 1⟩ : Prepared).depth.data
          (depthSize ⟨41666, depth1 7 8, colour1 3 2 1⟩) = (depth1 7 8).data) :=
  depth_normalization_noop refLib twoFrames twoFramesOut twoFramesWritten main_twoFrames
    (by decide) 0 ⟨41666, depth1 7 8, colour1 3 2 1⟩ (depth1 7 8) (by decide) (by decide)
    (by decide)

/-! ## Colour channel order -/

theorem pixelAt_append_left (a b : List Nat) (sz k : Nat) (h : k * sz + sz ≤ a.length) :
    pixelAt (a ++ b) sz k = pixelAt a sz k := by
  unfold pixelAt
  rw [List.drop_append_of_le_length (by omega), List.take_append_of_le_length
    (by rw [List.length_drop]; omega)]

theorem pixelAt_append_right (a b : List Nat) (sz k : Nat) (ha : a.length = k * sz)
    (hb : b.length = sz) : pixelAt (a ++ b) sz k = b := by
  unfold pixelAt
  rw [← ha, List.drop_left, ← hb, List.take_length]

theorem pixelAt_swappedData (es sz : Nat) (data : List Nat) (hsz : 3 * es ≤ sz) (n : Nat)
    (h : n * sz ≤ data.length) (k : Nat) (hk : k < n) :
    pixelAt (swappedData es sz data n) (3 * es) k = swapFirstThird es (pixelAt data sz k) := by
  induction n with
  | zero => omega
  | succ n ih =>
    have e1 : (n + 1) * sz = n * sz + sz := Nat.succ_mul n sz
    have hl : (swappedData es sz data n).length = n * (3 * es) :=
      length_swappedData es sz data hsz n (by omega)
    have hx : (swapFirstThird es (pixelAt data sz n)).length = 3 * es :=
      length_swapFirstThird es _ (by rw [length_pixelAt _ _ _ (by omega)]; exact hsz)
    simp only [swappedData]
    by_cases hkn : k < n
    · rw [pixelAt_append_left _ _ _ _ (by
        rw [hl]
        have : (k + 1) * (3 * es) ≤ n * (3 * es) := Nat.mul_le_mul_right _ (by omega)
        have e2 : (k + 1) * (3 * es) = k * (3 * es) + 3 * es := Nat.succ_mul k (3 * es)
        omega)]
      exact ih (by omega) hkn
    · have : k = n := by omega
      subst this
      rw [pixelAt_append_right _ _ _ _ hl hx]

theorem pixelAt_three (data : List Nat) (k : Nat) (h : 3 * k + 3 ≤ data.length) :
    pixelAt data 3 k = [data.getD (3 * k) 0, data.getD (3 * k + 1) 0, data.getD (3 * k + 2) 0] := by
  unfold pixelAt
  have h0 : k * 3 < data.length := by omega
  have h1 : k * 3 + 1 < data.length := by omega
  have h2 : k * 3 + 2 < data.length := by omega
  rw [List.drop_eq_getElem_cons h0, List.drop_eq_getElem_cons h1, List.drop_eq_getElem_cons h2]
  simp only [List.take_succ_cons, List.take_zero]
  rw [Nat.mul_comm 3 k, List.getD_eq_getElem _ _ h0, List.getD_eq_getElem _ _ h1,
    List.getD_eq_getElem _ _ h2]

/-- C10, as stated, fails on the first frame of `twoFrames`: the decoded
colour image has one pixel with blue 1, green 2, red 3, and the three colour
bytes written for it are 3, 2, 1, that is red, green, blue. -/
theorem colour_order_counterexample :
    ¬ (∀ (i : Nat) (p : Prepared) (src : Mat) (k : Nat),
        (main refLib twoFrames).frames[i]? = some p → twoFrames.rgbs[i]? = some src →
        k < src.total →
        pixelAt (streamWrite p.rgb.data (rgbSize p)) 3 k
          = [blueAt src k, greenAt src k, redAt src k]) ∧
      ((main refLib twoFrames).file.bind decodeContainer).map
        (fun c => c.2.map (fun r => r.color)) = some [[3, 2, 1], [6, 5, 4]] := by
  refine ⟨fun h => ?_, by decide⟩
  have h0 := h 0 ⟨41666, depth1 7 8, colour1 3 2 1⟩ (colour1 1 2 3) 0 (by decide) (by decide)
    (by decide)
  revert h0
  decide

/-- C10, amended. In a run that returns 0, for every frame whose colour file
was decoded by `imread` (8-bit, three channels stored blue, green, red, buffer
shorter than `2 ^ 31` bytes) and every pixel, the three colour bytes written
for the pixel are its red, green and blue values in that order: the bytes
`imread` delivered with the first and the third exchanged. -/
theorem colour_order (lib : Lib) (inp : Input) (out : List Nat) (ps : List Prepared)
    (hrun : main lib inp = ⟨.exit 0, some out, ps⟩)
    (i : Nat) (p : Prepared) (src : Mat) (k : Nat)
    (hp : ps[i]? = some p) (hsrc : inp.rgbs[i]? = some src)
    (hdec : src.decodedColour) (hsmall : src.data.length < 2 ^ 31) (hk : k < src.total) :
    pixelAt (streamWrite p.rgb.data (rgbSize p)) 3 k
      = [redAt src k, greenAt src k, blueAt src k] := by
  obtain ⟨r, d, t0, hr, -, hproc⟩ := main_frame hrun i p hp
  rw [hsrc] at hr
  simp only [Option.some.injEq] at hr
  subst hr
  obtain ⟨hl, -, -⟩ := processFrame_ok hproc
  obtain ⟨hc, -⟩ := loadFrame_ok hl
  obtain ⟨hd0, hch, hvalid⟩ := hdec
  have hv := cvtColor_valid hc hvalid
  obtain ⟨-, -, hrows, hcols, hdepth, hchan, hdata⟩ := cvtColor_ok hc
  have hes : src.elemSize = 3 := by simp [Mat.elemSize, hd0, hch, elemSize1]
  have hlen : src.data.length = src.total * 3 := by rw [← hes]; exact hvalid
  have hplen : p.rgb.data.length = src.data.length := by
    rw [hv, hlen]
    simp [Mat.total, Mat.elemSize, hrows, hcols, hdepth, hchan, hd0, elemSize1]
  rw [rgbSize_eq_length p hv (by omega), streamWrite_length, hdata, hd0, hes]
  have e1 : elemSize1 0 = 1 := rfl
  rw [e1]
  have := pixelAt_swappedData 1 3 src.data (by omega) src.total (by omega) k hk
  rw [Nat.mul_one] at this
  rw [this, pixelAt_three src.data k (by omega)]
  simp [swapFirstThird, redAt, greenAt, blueAt]

theorem colour_order_witness :
    pixelAt (streamWrite (⟨41666, depth1 7 8, colour1 3 2 1⟩ : Prepared).rgb.data
        (rgbSize ⟨41666, depth1 7 8, colour1 3 2 1⟩)) 3 0
      = [redAt (colour1 1 2 3) 0, greenAt (colour1 1 2 3) 0, blueAt (colour1 1 2 3) 0] :=
  colour_order refLib twoFrames twoFramesOut twoFramesWritten main_twoFrames 0
    ⟨41666, depth1 7 8, colour1 3 2 1⟩ (colour1 1 2 3) 0 (by decide) (by decide) (by decide)
    (by decide) (by decide)

end Klg
